import Mathlib

/-!
# The 2D Ising model of `IsingModel.c`

A shallow embedding of the simulation core of `IsingModel.c` and a
verification of its documented properties.

Conventions of the embedding.

* `double` values are exact rationals (`ℚ`): a statement about `energy`,
  `delta_E` or `stats` is a statement of exact arithmetic. The rounded
  binary64 values of `energy` and `delta_E` are `energyDouble` and
  `delta_E_double`.
* `int` values are mathematical integers (`Int`); the C remainder `%` is the
  truncating `Int.tmod`. The index expression of `S` in 32-bit `int`
  arithmetic is `idxInt`; it agrees with `idx` wherever `DIM + x` does not
  overflow, which covers every access the program makes.
* The lattice side `DIM` is a compile-time macro of the source; the functions
  take the side as the argument `dim`, and `DIM = 30` is the shipped value.
* The GSL generator and the `libm` functions `exp` and `sqrt` are external:
  they are the fields of `Extern`, over an arbitrary generator state `G`.
* `int matrix[DIM][DIM]` is a function of two integer indices; its cells are
  the indices in `[0, dim)`, any other index is outside the array.
-/

namespace Ising

/-! ## Constants -/

/-- Boltzmann constant, J/K (`#define KB`). -/
def KB : ℚ := 1.38064852e-23

/-- Bohr magneton, J/T (`#define MU_B`). -/
def MU_B : ℚ := 9.27400999e-24

/-- Exchange constant, J (`#define J`). -/
def J : ℚ := 6.44e-21

/-- Side of the lattice (`#define DIM`). -/
def DIM : Nat := 30

/-- Number of sampling sweeps (`#define EVOLVE`). -/
def EVOLVE : Nat := 4000

/-! ## Data model -/

/-- The array `int matrix[DIM][DIM]`, indexed by row and column. -/
abbrev Matrix := Int → Int → Int

/-- The record `struct properties`. -/
structure Properties where
  M : ℚ
  C : ℚ
  Temp : ℚ
  Energy : ℚ
  Energy_av : ℚ
  Energy_avsquare : ℚ
  Energy_stddev : ℚ
  Mag_av : ℚ
  Mag_avsquare : ℚ
  Mag_stddev : ℚ
  Chi : ℚ
  B : ℚ

/-- The external functions the program calls, over a generator state `G`:
the three GSL draws, each returning its value and the advanced generator,
with the ranges GSL documents for them, and `exp`, `sqrt` of `libm`. -/
structure Extern (G : Type) where
  gsl_rng_get : G → Nat × G
  gsl_rng_uniform_int : G → Nat → Nat × G
  gsl_rng_uniform : G → ℚ × G
  exp : ℚ → ℚ
  sqrt : ℚ → ℚ
  uniform_int_lt : ∀ g n, 0 < n → (gsl_rng_uniform_int g n).1 < n
  uniform_nonneg : ∀ g, 0 ≤ (gsl_rng_uniform g).1
  uniform_lt_one : ∀ g, (gsl_rng_uniform g).1 < 1

/-- The record `struct system`: the lattice and its generator. -/
structure System (G : Type) where
  matrix : Matrix
  Rangen : G

/-- The C loop `for (int i = 0; i < n; i++) body`, as a state transformer. -/
def forLoop {σ : Type} : Nat → (Nat → σ → σ) → σ → σ
  | 0, _, s => s
  | n + 1, body, s => body n (forLoop n body s)

/-- Conversion of an `unsigned long` to `int`: reduction modulo `2^32` into
the two's complement range. -/
def toInt (r : Nat) : Int :=
  if r % 2 ^ 32 < 2 ^ 31 then ((r % 2 ^ 32 : Nat) : Int)
  else ((r % 2 ^ 32 : Nat) : Int) - 2 ^ 32

/-- The index expression `(DIM+(x))%(DIM)` of the macro `S`, with the sum
taken on the integers. -/
def idx (dim : Nat) (x : Int) : Int := Int.tmod ((dim : Int) + x) (dim : Int)

/-- The macro `S(x,y)` read as a value. -/
def S (dim : Nat) (m : Matrix) (x y : Int) : Int := m (idx dim x) (idx dim y)

/-- The assignment `matrix[i][j] = v`. -/
def setCell (m : Matrix) (i j : Int) (v : Int) : Matrix :=
  fun a b => if a = i ∧ b = j then v else m a b

/-- The assignment `S(x,y) = v`. -/
def setS (dim : Nat) (m : Matrix) (x y : Int) (v : Int) : Matrix :=
  setCell m (idx dim x) (idx dim y) v

/-- Every cell of the `dim x dim` lattice is `+1` or `-1`. -/
def SpinValued (dim : Nat) (m : Matrix) : Prop :=
  ∀ i j : Nat, i < dim → j < dim → m i j = 1 ∨ m i j = -1

/-! ## `matgen` -/

/-- The body of the inner loop of `matgen` for cell `(i, j)`; the state
carries the local `n`, which is declared without an initial value. -/
def matgenCell {G : Type} (E : Extern G) (i j : Nat) (st : System G × Int) :
    System G × Int :=
  let r := E.gsl_rng_get st.1.Rangen
  let x : Int := toInt r.1
  let n : Int := if Int.tmod x 2 = 0 then 1 else st.2
  let n : Int := if Int.tmod x 2 ≠ 0 then -1 else n
  ({ matrix := setCell st.1.matrix i j n, Rangen := r.2 }, n)

/-- The function `matgen`; `n0` is the indeterminate initial value of `n`. -/
def matgen {G : Type} (E : Extern G) (dim : Nat) (n0 : Int) (Sysmem : System G) :
    System G :=
  (forLoop dim (fun i st => forLoop dim (fun j st' => matgenCell E i j st') st)
    (Sysmem, n0)).1

/-! ## `evolution` -/

/-- The energy `delta_E` that `evolution` computes for the site `(x, y)`, in
exact arithmetic. -/
def delta_E (dim : Nat) (m : Matrix) (B : ℚ) (x y : Int) : ℚ :=
  (S dim m x y : ℚ) *
    (2 * J * ((S dim m (x - 1) y + S dim m x (y - 1) + S dim m (x + 1) y
      + S dim m x (y + 1) : Int) : ℚ) + MU_B * B)

/-- One proposal: the body of the loop of `evolution`. -/
def proposal {G : Type} (E : Extern G) (dim : Nat) (Prop_ : Properties)
    (Sysmem : System G) : System G :=
  let dx := E.gsl_rng_uniform_int Sysmem.Rangen dim
  let dy := E.gsl_rng_uniform_int dx.2 dim
  let x : Int := (dx.1 : Int)
  let y : Int := (dy.1 : Int)
  let dE := delta_E dim Sysmem.matrix Prop_.B x y
  if dE ≤ 0 then
    { matrix := setS dim Sysmem.matrix x y (-(S dim Sysmem.matrix x y)), Rangen := dy.2 }
  else
    let du := E.gsl_rng_uniform dy.2
    if du.1 < E.exp (-dE / (KB * Prop_.Temp)) then
      { matrix := setS dim Sysmem.matrix x y (-(S dim Sysmem.matrix x y)), Rangen := du.2 }
    else
      { matrix := Sysmem.matrix, Rangen := du.2 }

/-- The function `evolution`: one sweep of `DIM*DIM` proposals. -/
def evolution {G : Type} (E : Extern G) (dim : Nat) (Prop_ : Properties)
    (Sysmem : System G) : System G :=
  forLoop (dim * dim) (fun _ s => proposal E dim Prop_ s) Sysmem

/-- The lattice after `k` successive calls of `evolution`. -/
def sweeps {G : Type} (E : Extern G) (dim : Nat) (Prop_ : Properties) (k : Nat)
    (Sysmem : System G) : System G :=
  forLoop k (fun _ s => evolution E dim Prop_ s) Sysmem

/-! ## `energy` and `magnetisation` -/

/-- The function `energy`, in exact arithmetic: it zeroes `Energy` and
subtracts, for every site, the bond terms of the two forward neighbours and
the field term. -/
def energy (dim : Nat) (m : Matrix) (Prop_ : Properties) : Properties :=
  forLoop dim (fun x p => forLoop dim (fun y p' =>
      { p' with Energy := p'.Energy - (S dim m x y : ℚ) *
          (J * ((S dim m (x + 1) y + S dim m x (y + 1) : Int) : ℚ) + MU_B * p'.B) }) p)
    { Prop_ with Energy := 0 }

/-- The local `sum` of `magnetisation` after its two loops. -/
def spinSum (dim : Nat) (m : Matrix) : ℚ :=
  forLoop dim (fun x s => forLoop dim (fun y s' => s' + (S dim m x y : ℚ)) s) 0

/-- The function `magnetisation`. -/
def magnetisation (dim : Nat) (m : Matrix) (Prop_ : Properties) : Properties :=
  { Prop_ with M := spinSum dim m / ((dim * dim : Nat) : ℚ) }

/-! ## `stats` -/

/-- The two assignments after the first call of `energy` in `stats`. -/
def seedEnergy (p : Properties) : Properties :=
  let p := { p with Energy_av := p.Energy }
  { p with Energy_avsquare := p.Energy * p.Energy }

/-- The two assignments after the first call of `magnetisation` in `stats`. -/
def seedMag (p : Properties) : Properties :=
  let p := { p with Mag_av := p.M }
  { p with Mag_avsquare := p.M * p.M }

/-- The six assignments of the sampling loop of `stats` that update the
running moments from `Energy` and `M`, for the current value of `x`. -/
def accumulate {G : Type} (E : Extern G) (p : Properties) (x : Nat) : Properties :=
  let p := { p with Energy_av := (p.Energy_av * (x : ℚ) + p.Energy) / ((x + 1 : Nat) : ℚ) }
  let p := { p with Energy_avsquare :=
    (p.Energy_avsquare * (x : ℚ) + p.Energy * p.Energy) / ((x + 1 : Nat) : ℚ) }
  let sd := E.sqrt (p.Energy_avsquare - p.Energy_av * p.Energy_av)
  let p := { p with Energy_stddev := sd }
  let p := { p with Mag_av := (p.Mag_av * (x : ℚ) + p.M) / ((x + 1 : Nat) : ℚ) }
  let p := { p with Mag_avsquare :=
    (p.Mag_avsquare * (x : ℚ) + p.M * p.M) / ((x + 1 : Nat) : ℚ) }
  let sd := E.sqrt (abs (p.Mag_avsquare - p.Mag_av * p.Mag_av))
  { p with Mag_stddev := sd }

/-- The state of `stats`: the lattice, the record and the local `x`. -/
structure StatsState (G : Type) where
  Sysmem : System G
  Prop_ : Properties
  x : Nat

/-- The body of the sampling loop of `stats`. -/
def statsStep {G : Type} (E : Extern G) (dim : Nat) (st : StatsState G) : StatsState G :=
  let s := evolution E dim st.Prop_ st.Sysmem
  let p := energy dim s.matrix st.Prop_
  let p := magnetisation dim s.matrix p
  { Sysmem := s, Prop_ := accumulate E p st.x, x := st.x + 1 }

/-- The state of `stats` before its sampling loop: 1000 sweeps, `x = 1`,
and the moments set from the first measurement. -/
def statsInit {G : Type} (E : Extern G) (dim : Nat) (Sysmem : System G)
    (Prop_ : Properties) : StatsState G :=
  let s := forLoop 1000 (fun _ s => evolution E dim Prop_ s) Sysmem
  let p := seedEnergy (energy dim s.matrix Prop_)
  let p := seedMag (magnetisation dim s.matrix p)
  { Sysmem := s, Prop_ := p, x := 1 }

/-- The state of `stats` after `k` iterations of its sampling loop. -/
def statsLoop {G : Type} (E : Extern G) (dim : Nat) (k : Nat) (Sysmem : System G)
    (Prop_ : Properties) : StatsState G :=
  forLoop k (fun _ st => statsStep E dim st) (statsInit E dim Sysmem Prop_)

/-- The function `stats`, with the final value of its local `x`. -/
def stats {G : Type} (E : Extern G) (dim : Nat) (Sysmem : System G)
    (Prop_ : Properties) : StatsState G :=
  statsLoop E dim EVOLVE Sysmem Prop_

/-! ## The `-D` mode of `main` -/

/-- The ways the `-D` mode stops early. -/
inductive Halt where
  | invalidTemperature
  | invalidImages
  | divisionByZero
  deriving DecidableEq, Repr

/-- What a run of the `-D` mode does: the lattice, the number of calls of
`evolution`, the sweep index and content of every write of `Domain.dat`, and
whether the run stopped early. -/
structure Run (G : Type) where
  Sysmem : System G
  sweeps : Nat
  frames : List (Nat × Matrix)
  halted : Option Halt

/-- The body of the loop of the `-D` mode at sweep index `i`. -/
def domainStep {G : Type} (E : Extern G) (dim : Nat) (Prop_ : Properties)
    (image : Int) (i : Nat) (r : Run G) : Run G :=
  match r.halted with
  | some _ => r
  | none =>
    let s := evolution E dim Prop_ r.Sysmem
    if image = 0 then
      { Sysmem := s, sweeps := r.sweeps + 1, frames := r.frames,
        halted := some Halt.divisionByZero }
    else if Int.tmod (i : Int) image = 0 then
      { Sysmem := s, sweeps := r.sweeps + 1, frames := r.frames ++ [(i, s.matrix)],
        halted := none }
    else
      { Sysmem := s, sweeps := r.sweeps + 1, frames := r.frames, halted := none }

/-- The `-D` mode of `main` for temperature `Temp`, field `B` and image count
`output_number`, as parsed from the command line. -/
def caseD {G : Type} (E : Extern G) (dim : Nat) (Temp B : ℚ) (output_number : Int)
    (Sysmem : System G) (Prop_ : Properties) : Run G :=
  let p := { Prop_ with Temp := Temp }
  let p := { p with B := B }
  if p.Temp ≤ 0 then
    { Sysmem := Sysmem, sweeps := 0, frames := [], halted := some Halt.invalidTemperature }
  else if output_number ≤ 0 then
    { Sysmem := Sysmem, sweeps := 0, frames := [], halted := some Halt.invalidImages }
  else
    let image : Int := Int.tdiv 5000 output_number
    forLoop 5000 (fun i r => domainStep E dim p image i r)
      { Sysmem := Sysmem, sweeps := 0, frames := [], halted := none }

/-- The sweep indices at which the `-D` mode writes a snapshot. -/
def snapshotIndices {G : Type} (r : Run G) : List Nat := r.frames.map Prod.fst

/-! ## `heatcapacity` and `susceptibility` -/

/-- The function `heatcapacity`. -/
def heatcapacity (Prop_ : Properties) : Properties :=
  { Prop_ with C := (Prop_.Energy_stddev * Prop_.Energy_stddev) /
      (KB * Prop_.Temp * Prop_.Temp) }

/-- The function `susceptibility`. -/
def susceptibility (Prop_ : Properties) : Properties :=
  { Prop_ with Chi := (Prop_.Mag_stddev * Prop_.Mag_stddev) / (KB * Prop_.Temp) }

/-! ## The `-T` mode of `main` -/

/-- Step of the applied field (`#define FIELDSTEP`). -/
def FIELDSTEP : Nat := 100

/-- Upper end of the field range (`#define MAXFIELD`). -/
def MAXFIELD : Nat := 20000

/-- What a run of the `-T` mode does: the lattice and the record, the number
of calls of `evolution`, whether `Brillouin.dat` has been opened, the rows
`(B, M)` written to it, and whether the run stopped early. -/
structure FieldRun (G : Type) where
  Sysmem : System G
  Prop_ : Properties
  sweeps : Nat
  opened : Bool
  rows : List (ℚ × ℚ)
  halted : Option Halt

/-- The body of the loop of the `-T` mode followed by its increment
`Prop->B += FIELDSTEP`; the call of `stats` makes `1000 + EVOLVE` calls of
`evolution`. -/
def fieldStep {G : Type} (E : Extern G) (dim : Nat) (r : FieldRun G) : FieldRun G :=
  let st := stats E dim r.Sysmem r.Prop_
  let p := magnetisation dim st.Sysmem.matrix st.Prop_
  { Sysmem := st.Sysmem, Prop_ := { p with B := p.B + (FIELDSTEP : ℚ) },
    sweeps := r.sweeps + (1000 + EVOLVE), opened := r.opened,
    rows := r.rows ++ [(p.B, p.M)], halted := r.halted }

/-- The loop `for (...; Prop->B < MAXFIELD; Prop->B += FIELDSTEP)` of the
`-T` mode with a bound `fuel` on its iterations; `none` when the bound is
reached before the loop ends. -/
def fieldLoop {G : Type} (E : Extern G) (dim : Nat) : Nat → FieldRun G → Option (FieldRun G)
  | 0, r => if r.Prop_.B < (MAXFIELD : ℚ) then none else some r
  | fuel + 1, r =>
    if r.Prop_.B < (MAXFIELD : ℚ) then fieldLoop E dim fuel (fieldStep E dim r) else some r

/-- The `-T` mode of `main` for the temperature `Temp` parsed from the
command line. -/
def caseT {G : Type} (E : Extern G) (dim : Nat) (fuel : Nat) (Temp : ℚ)
    (Sysmem : System G) (Prop_ : Properties) : Option (FieldRun G) :=
  let p := { Prop_ with Temp := Temp }
  if p.Temp ≤ 0 then
    some { Sysmem := Sysmem, Prop_ := p, sweeps := 0, opened := false, rows := [],
           halted := some Halt.invalidTemperature }
  else
    fieldLoop E dim fuel
      { Sysmem := Sysmem, Prop_ := { p with B := 0 }, sweeps := 0, opened := true,
        rows := [], halted := none }

/-! ## The same code in machine arithmetic

The definitions above compute on mathematical integers and exact rationals.
The definitions of this section evaluate the index expression of `S` in
32-bit `int` arithmetic, and `energy` and `delta_E` in IEEE binary64
arithmetic with rounding to nearest, ties to even, after every operation.
-/

/-- The largest value of the C type `int`. -/
def INT_MAX : Int := 2147483647

/-- The value that a 32-bit two's complement `int` holds for the integer
`z`: `z` itself inside the range of `int`, wrapped around outside it. -/
def wrapInt (z : Int) : Int := (z + 2 ^ 31) % 2 ^ 32 - 2 ^ 31

/-- The index expression `(DIM+(x))%(DIM)` of the macro `S`, with the sum
taken in `int`. -/
def idxInt (dim : Nat) (x : Int) : Int := Int.tmod (wrapInt ((dim : Int) + x)) (dim : Int)

/-- The macro `S(x,y)` read as a value, with its indices taken in `int`:
the cell when both indices are inside the array, `none` when one of them is
outside. -/
def SInt (dim : Nat) (m : Matrix) (x y : Int) : Option Int :=
  if 0 ≤ idxInt dim x ∧ idxInt dim x < (dim : Int) ∧
      0 ≤ idxInt dim y ∧ idxInt dim y < (dim : Int) then
    some (m (idxInt dim x) (idxInt dim y))
  else none

/-- A binary64 number `m * 2^e`: zero is `m = 0, e = 0`, every other value
has `2^52 <= |m| < 2^53`. The range of the exponent is not bounded; the
values computed below stay far inside the normal range of `double`. -/
structure Double where
  m : Int
  e : Int
  deriving DecidableEq, Repr

/-- The number of binary digits of `n`, for a bound `fuel >= n`: digits are
counted 32 at a time, then 8 at a time, then one by one. -/
def bitLength : Nat → Nat → Nat
  | 0, _ => 0
  | fuel + 1, n =>
    if n = 0 then 0
    else if 2 ^ 32 ≤ n then bitLength fuel (n / 2 ^ 32) + 32
    else if 2 ^ 8 ≤ n then bitLength fuel (n / 2 ^ 8) + 8
    else bitLength fuel (n / 2) + 1

/-- The binary64 number nearest to `m * 2^e`, ties to the even mantissa. -/
def Double.round (m : Int) (e : Int) : Double :=
  let n := m.natAbs
  if n = 0 then ⟨0, 0⟩ else
  let b := bitLength n n
  if b ≤ 53 then ⟨m * ((2 ^ (53 - b) : Nat) : Int), e - ((53 - b : Nat) : Int)⟩
  else
    let s := b - 53
    let q := n / 2 ^ s
    let r := n % 2 ^ s
    let h := 2 ^ (s - 1)
    let q' := if h < r ∨ (r = h ∧ q % 2 = 1) then q + 1 else q
    if q' = 2 ^ 53 then ⟨Int.sign m * ((2 ^ 52 : Nat) : Int), e + ((s + 1 : Nat) : Int)⟩
    else ⟨Int.sign m * (q' : Int), e + (s : Int)⟩

/-- Binary64 addition: the exact sum, rounded. -/
def Double.add (a b : Double) : Double :=
  let e := min a.e b.e
  Double.round (a.m * ((2 ^ (a.e - e).toNat : Nat) : Int)
    + b.m * ((2 ^ (b.e - e).toNat : Nat) : Int)) e

/-- Binary64 negation. -/
def Double.neg (a : Double) : Double := ⟨-a.m, a.e⟩

/-- Binary64 subtraction: the exact difference, rounded. -/
def Double.sub (a b : Double) : Double := Double.add a (Double.neg b)

/-- Binary64 multiplication: the exact product, rounded. -/
def Double.mul (a b : Double) : Double := Double.round (a.m * b.m) (a.e + b.e)

/-- Conversion of an `int` to `double`. -/
def Double.ofInt (n : Int) : Double := Double.round n 0

/-- The rational number that a binary64 number stands for. -/
def Double.toRat (a : Double) : ℚ := (a.m : ℚ) * (2 : ℚ) ^ a.e

/-- The `double` that the constant `6.44e-21` of `#define J` denotes:
`0x1.e697b7697844ap-68`. -/
def J64 : Double := ⟨8560228292854858, -120⟩

/-- The `double` that the constant `9.27400999e-24` of `#define MU_B`
denotes: `0x1.66c558a9231fap-77`. -/
def MU_B64 : Double := ⟨6311564140491258, -129⟩

/-- The statement `Prop->Energy -= S(x,y)*(J*(S(x+1,y)+S(x,y+1)) + MU_B*B)`
of `energy` for the site `(x, y)`, computed in binary64 on the running
value `e` of `Energy`. -/
def energyCellDouble (dim : Nat) (m : Matrix) (B : Double) (x y : Nat) (e : Double) :
    Double :=
  Double.sub e (Double.mul (Double.ofInt (S dim m x y))
    (Double.add
      (Double.mul J64 (Double.ofInt (S dim m ((x : Int) + 1) y + S dim m x ((y : Int) + 1))))
      (Double.mul MU_B64 B)))

/-- The rows `a, ..., a + n - 1` of the loops of `energy`, computed in
binary64 from the running value `e` of `Energy`. -/
def energyRowsDouble (dim : Nat) (m : Matrix) (B : Double) (a n : Nat) (e : Double) :
    Double :=
  forLoop n (fun i e1 => forLoop dim (fun y e2 => energyCellDouble dim m B (a + i) y e2) e1) e

/-- The value that `energy` leaves in `Energy`, computed in binary64. -/
def energyDouble (dim : Nat) (m : Matrix) (B : Double) : Double :=
  forLoop dim (fun x e1 => forLoop dim (fun y e2 => energyCellDouble dim m B x y e2) e1)
    ⟨0, 0⟩

/-- The `delta_E` of `evolution` for the site `(x, y)`, computed in
binary64. -/
def delta_E_double (dim : Nat) (m : Matrix) (B : Double) (x y : Int) : Double :=
  Double.mul (Double.ofInt (S dim m x y))
    (Double.add
      (Double.mul (Double.mul (Double.ofInt 2) J64)
        (Double.ofInt (S dim m (x - 1) y + S dim m x (y - 1) + S dim m (x + 1) y
          + S dim m x (y + 1))))
      (Double.mul MU_B64 B))

/-! ## Auxiliary notions used in the statements -/

/-- The lattice with every spin negated. -/
def negateAll (m : Matrix) : Matrix := fun i j => -(m i j)

/-- The lattice with only the spin at `(x, y)` negated, as `evolution` does
it: `S(x,y) = -S(x,y)`. -/
def flipSite (dim : Nat) (m : Matrix) (x y : Int) : Matrix :=
  setS dim m x y (-(S dim m x y))

/-- All spins of the `dim x dim` lattice are equal. -/
def AllEqual (dim : Nat) (m : Matrix) : Prop :=
  ∀ i j i' j' : Nat, i < dim → j < dim → i' < dim → j' < dim → m i j = m i' j'

/-- The lattice with every spin `+1`. -/
def allUp : Matrix := fun _ _ => 1

/-- A record with every field zero. -/
def zeroProp : Properties :=
  { M := 0, C := 0, Temp := 0, Energy := 0, Energy_av := 0, Energy_avsquare := 0,
    Energy_stddev := 0, Mag_av := 0, Mag_avsquare := 0, Mag_stddev := 0, Chi := 0, B := 0 }

/-- The observation `(e, mag)` stored the way `energy` and `magnetisation`
leave their results, in `Energy` and `M`. -/
def observe (p : Properties) (o : ℚ × ℚ) : Properties :=
  { p with Energy := o.1, M := o.2 }

/-- The moment updates of `stats` fed with a seed observation and then the
observations `obs`, one per iteration, with `x` starting at 1. -/
def feed {G : Type} (E : Extern G) (p : Properties) (seed : ℚ × ℚ)
    (obs : List (ℚ × ℚ)) : Properties × Nat :=
  obs.foldl (fun st o => (accumulate E (observe st.1 o) st.2, st.2 + 1))
    (seedMag (seedEnergy (observe p seed)), 1)

/-- The arithmetic mean of a non-empty list. -/
def mean (l : List ℚ) : ℚ := l.sum / (l.length : ℚ)

/-- A small deterministic generator over a counter, used for concrete runs:
raw draws follow a linear congruence, site draws are the counter modulo `n`,
and the uniform draw is `(g mod 10) / 10`. -/
def counterGen : Extern Nat where
  gsl_rng_get := fun g => ((1103515245 * g + 12345) % 2 ^ 32, g + 1)
  gsl_rng_uniform_int := fun g n => (g % n, g + 1)
  gsl_rng_uniform := fun g => (((g % 10 : Nat) : ℚ) / 10, g + 1)
  exp := fun _ => 1 / 2
  sqrt := fun q => q
  uniform_int_lt := fun g n h => Nat.mod_lt g h
  uniform_nonneg := fun g => by positivity
  uniform_lt_one := fun g => by
    have h : g % 10 < 10 := Nat.mod_lt g (by norm_num)
    have h' : ((g % 10 : Nat) : ℚ) < 10 := by exact_mod_cast h
    show ((g % 10 : Nat) : ℚ) / 10 < 1
    rw [div_lt_one (by norm_num)]
    exact h'

/-! ## Auxiliary notions used in the proofs -/

/-- The cells of the rows below `i`, and of row `i` left of column `j`, are
spins: the invariant of the loops of `matgen`. -/
def FilledTo (dim i j : Nat) (m : Matrix) : Prop :=
  ∀ a b : Nat, b < dim → (a < i ∨ (a = i ∧ b < j)) → m a b = 1 ∨ m a b = -1

/-- The bond and field term that `energy` subtracts for the site `(x, y)`. -/
def siteEnergy (dim : Nat) (m : Matrix) (B : ℚ) (x y : Nat) : ℚ :=
  (S dim m x y : ℚ) * (J * ((S dim m ((x : Int) + 1) y + S dim m x ((y : Int) + 1) : Int) : ℚ)
    + MU_B * B)

/-- The energy and the magnetisation that `energy` and `magnetisation`
compute on the lattice reached after `n` sweeps. -/
def measured {G : Type} (E : Extern G) (dim : Nat) (p : Properties) (s : System G)
    (n : Nat) : ℚ × ℚ :=
  ((energy dim (sweeps E dim p n s).matrix p).Energy,
    (magnetisation dim (sweeps E dim p n s).matrix p).M)

/-- The lattice read as rational numbers, the way the C expressions convert
its `int` cells to `double`. -/
def castM (m : Matrix) : Int → Int → ℚ := fun i j => (m i j : ℚ)

/-- The sum over all sites of `u(x,y) * (v(x+1,y) + v(x,y+1))` with periodic
wrap: the bonds to the two forward neighbours. -/
def fwd (dim : Nat) (u v : Int → Int → ℚ) : ℚ :=
  ∑ x ∈ Finset.range dim, ∑ y ∈ Finset.range dim,
    u x y * (v (idx dim ((x : Int) + 1)) y + v x (idx dim ((y : Int) + 1)))

/-- The sum over all sites of `u(x,y) * (v(x-1,y) + v(x,y-1))` with periodic
wrap: the bonds to the two backward neighbours. -/
def bwd (dim : Nat) (u v : Int → Int → ℚ) : ℚ :=
  ∑ x ∈ Finset.range dim, ∑ y ∈ Finset.range dim,
    u x y * (v (idx dim ((x : Int) - 1)) y + v x (idx dim ((y : Int) - 1)))

/-- The sum of `u` over all sites. -/
def total (dim : Nat) (u : Int → Int → ℚ) : ℚ :=
  ∑ x ∈ Finset.range dim, ∑ y ∈ Finset.range dim, u x y

/-- The lattice that is `c` at the cell `(a, b)` and zero elsewhere. -/
def bump (a b : Int) (c : ℚ) : Int → Int → ℚ :=
  fun i j => if i = a ∧ j = b then c else 0

/-- A generator for a concrete run of `stats`. Its state counts the site
draws and the uniform draws. The site draw number 1800000, which is the first
draw of the sweep with index 1000, returns 1; every other site draw returns
0; every uniform draw returns 0. -/
def spikeGen : Extern (Nat × Nat) where
  gsl_rng_get := fun g => (0, g)
  gsl_rng_uniform_int := fun g n => ((if g.1 = 1800000 then 1 else 0) % n, (g.1 + 1, g.2))
  gsl_rng_uniform := fun g => (0, (g.1, g.2 + 1))
  exp := fun _ => 1 / 2
  sqrt := fun q => q
  uniform_int_lt := fun _ _ h => Nat.mod_lt _ h
  uniform_nonneg := fun _ => le_refl 0
  uniform_lt_one := fun _ => zero_lt_one

/-- The all-up lattice of side `DIM` after the flips of the sites `(1, 0)`
and `(0, 0)`. -/
def twoDown : Matrix := flipSite DIM (flipSite DIM allUp 1 0) 0 0

/-- A record at temperature 300 and field 0 whose other fields hold
arbitrary values left over from earlier work. -/
def usedProp : Properties :=
  { M := 5, C := 1, Temp := 300, Energy := 3, Energy_av := 7, Energy_avsquare := -2,
    Energy_stddev := 11, Mag_av := 1 / 3, Mag_avsquare := 4, Mag_stddev := -1, Chi := 9,
    B := 0 }

/-- The calls a program can make to the generator: `gsl_rng_get`,
`gsl_rng_uniform_int` with its bound, and `gsl_rng_uniform`. -/
inductive Draw where
  | raw
  | site (n : Nat)
  | uniform
  deriving DecidableEq, Repr

/-- The generator of `E` together with the log of the calls made to it, in
the order they are made; the values drawn are those of `E`. -/
def traced {G : Type} (E : Extern G) : Extern (G × List Draw) where
  gsl_rng_get := fun g => ((E.gsl_rng_get g.1).1, ((E.gsl_rng_get g.1).2, g.2 ++ [Draw.raw]))
  gsl_rng_uniform_int := fun g n =>
    ((E.gsl_rng_uniform_int g.1 n).1, ((E.gsl_rng_uniform_int g.1 n).2, g.2 ++ [Draw.site n]))
  gsl_rng_uniform := fun g =>
    ((E.gsl_rng_uniform g.1).1, ((E.gsl_rng_uniform g.1).2, g.2 ++ [Draw.uniform]))
  exp := E.exp
  sqrt := E.sqrt
  uniform_int_lt := fun g n h => E.uniform_int_lt g.1 n h
  uniform_nonneg := fun g => E.uniform_nonneg g.1
  uniform_lt_one := fun g => E.uniform_lt_one g.1

/-- The `delta_E` of the proposal that starts in the state `s`. -/
def proposalDelta {G : Type} (E : Extern G) (dim : Nat) (p : Properties)
    (s : System G) : ℚ :=
  delta_E dim s.matrix p.B ((E.gsl_rng_uniform_int s.Rangen dim).1 : Int)
    ((E.gsl_rng_uniform_int (E.gsl_rng_uniform_int s.Rangen dim).2 dim).1 : Int)

/-- The state after the first `n` proposals of a sweep that starts in `s`. -/
def afterProposals {G : Type} (E : Extern G) (dim : Nat) (p : Properties) (n : Nat)
    (s : System G) : System G :=
  forLoop n (fun _ t => proposal E dim p t) s

/-- The number of proposals with `delta_E > 0` among the first `n` proposals
of a sweep that starts in `s`. -/
def positiveProposals {G : Type} (E : Extern G) (dim : Nat) (p : Properties) :
    Nat → System G → Nat
  | 0, _ => 0
  | n + 1, s => positiveProposals E dim p n s +
      (if 0 < proposalDelta E dim p (afterProposals E dim p n s) then 1 else 0)

/-- The calls that one proposal starting in `s` makes to the generator: two
site draws, then one uniform draw when `delta_E > 0`. -/
def proposalDraws {G : Type} (E : Extern G) (dim : Nat) (p : Properties)
    (s : System G) : List Draw :=
  [Draw.site dim, Draw.site dim] ++
    (if 0 < proposalDelta E dim p s then [Draw.uniform] else [])

/-- The calls that the first `n` proposals of a sweep starting in `s` make
to the generator, in order. -/
def sweepDraws {G : Type} (E : Extern G) (dim : Nat) (p : Properties) :
    Nat → System G → List Draw
  | 0, _ => []
  | n + 1, s => sweepDraws E dim p n s ++ proposalDraws E dim p (afterProposals E dim p n s)

/-! # Theorems -/

/-! ## Loops -/

theorem forLoop_succ {σ : Type} (n : Nat) (body : Nat → σ → σ) (s : σ) :
    forLoop (n + 1) body s = body n (forLoop n body s) := rfl

/-- Invariant rule for `forLoop` with an invariant that follows the index. -/
theorem forLoop_invariant {σ : Type} (P : Nat → σ → Prop) (n : Nat)
    (body : Nat → σ → σ) (s : σ) (h0 : P 0 s)
    (hstep : ∀ i t, i < n → P i t → P (i + 1) (body i t)) :
    P n (forLoop n body s) := by
  induction n with
  | zero => exact h0
  | succ k ih =>
    rw [forLoop_succ]
    exact hstep k _ (Nat.lt_succ_self k)
      (ih (fun i t hi hP => hstep i t (Nat.lt_succ_of_lt hi) hP))

/-- Invariant rule for `forLoop` with an invariant that ignores the index. -/
theorem forLoop_preserves {σ : Type} (P : σ → Prop) (n : Nat)
    (body : Nat → σ → σ) (s : σ) (h0 : P s)
    (hstep : ∀ i t, P t → P (body i t)) :
    P (forLoop n body s) :=
  forLoop_invariant (fun _ t => P t) n body s h0 (fun i t _ hP => hstep i t hP)

/-! ## The index expression of `S` -/

theorem idx_of_nonneg (dim : Nat) (x : Int) (hx : 0 ≤ x) :
    idx dim x = x % (dim : Int) := by
  unfold idx
  rw [Int.tmod_eq_emod (by omega) (by omega), Int.add_emod_self_left]

theorem idx_of_ge_neg (dim : Nat) (x : Int) (hx : -(dim : Int) ≤ x) :
    idx dim x = x % (dim : Int) := by
  unfold idx
  rw [Int.tmod_eq_emod (by omega) (by omega), Int.add_emod_self_left]

theorem idx_of_lt (dim : Nat) (x : Nat) (hx : x < dim) : idx dim (x : Int) = (x : Int) := by
  rw [idx_of_nonneg dim x (by omega)]
  exact Int.emod_eq_of_lt (by omega) (by omega)

theorem S_of_lt (dim : Nat) (m : Matrix) (x y : Nat) (hx : x < dim) (hy : y < dim) :
    S dim m (x : Int) (y : Int) = m x y := by
  unfold S
  rw [idx_of_lt dim x hx, idx_of_lt dim y hy]

/-! ## The spin-domain invariant -/

theorem setCell_spinValued (dim : Nat) (m : Matrix) (i j v : Int)
    (hm : SpinValued dim m) (hv : v = 1 ∨ v = -1) : SpinValued dim (setCell m i j v) := by
  intro a b ha hb
  unfold setCell
  by_cases h : ((a : Int) = i ∧ (b : Int) = j)
  · rw [if_pos h]; exact hv
  · rw [if_neg h]; exact hm a b ha hb

theorem flipSite_spinValued (dim : Nat) (m : Matrix) (x y : Int)
    (hm : SpinValued dim m) : SpinValued dim (flipSite dim m x y) := by
  intro a b ha hb
  unfold flipSite setS setCell S
  by_cases h : ((a : Int) = idx dim x ∧ (b : Int) = idx dim y)
  · rw [if_pos h, ← h.1, ← h.2]
    rcases hm a b ha hb with h1 | h1 <;> rw [h1] <;> simp
  · rw [if_neg h]; exact hm a b ha hb

theorem proposal_spinValued {G : Type} (E : Extern G) (dim : Nat) (p : Properties)
    (s : System G) (hm : SpinValued dim s.matrix) :
    SpinValued dim (proposal E dim p s).matrix := by
  have hf := flipSite_spinValued dim s.matrix
    ((E.gsl_rng_uniform_int s.Rangen dim).1 : Int)
    ((E.gsl_rng_uniform_int (E.gsl_rng_uniform_int s.Rangen dim).2 dim).1 : Int) hm
  unfold proposal
  dsimp only
  split_ifs
  · exact hf
  · exact hf
  · exact hm

theorem evolution_spinValued {G : Type} (E : Extern G) (dim : Nat) (p : Properties)
    (s : System G) (hm : SpinValued dim s.matrix) :
    SpinValued dim (evolution E dim p s).matrix :=
  forLoop_preserves (fun t : System G => SpinValued dim t.matrix) (dim * dim) _ s hm
    (fun _ t ht => proposal_spinValued E dim p t ht)

theorem sweeps_spinValued {G : Type} (E : Extern G) (dim : Nat) (p : Properties)
    (k : Nat) (s : System G) (hm : SpinValued dim s.matrix) :
    SpinValued dim (sweeps E dim p k s).matrix :=
  forLoop_preserves (fun t : System G => SpinValued dim t.matrix) k _ s hm
    (fun _ t ht => evolution_spinValued E dim p t ht)

/-- The value `matgenCell` writes is `+1` or `-1`, whatever the draw. -/
theorem matgenCell_value {G : Type} (E : Extern G) (i j : Nat) (st : System G × Int) :
    (matgenCell E i j st).2 = 1 ∨ (matgenCell E i j st).2 = -1 := by
  unfold matgenCell
  dsimp only
  by_cases h : Int.tmod (toInt (E.gsl_rng_get st.1.Rangen).1) 2 = 0
  · left; simp [h]
  · right; simp [h]

theorem matgenCell_matrix {G : Type} (E : Extern G) (i j : Nat) (st : System G × Int) :
    (matgenCell E i j st).1.matrix = setCell st.1.matrix i j (matgenCell E i j st).2 := rfl

theorem matgen_row {G : Type} (E : Extern G) (dim i : Nat) (st : System G × Int)
    (h : FilledTo dim i 0 st.1.matrix) :
    FilledTo dim (i + 1) 0 (forLoop dim (fun j st' => matgenCell E i j st') st).1.matrix := by
  have key : FilledTo dim i dim
      (forLoop dim (fun j st' => matgenCell E i j st') st).1.matrix := by
    refine forLoop_invariant (fun j (t : System G × Int) => FilledTo dim i j t.1.matrix)
      dim _ st h ?_
    intro j t _ ht a b hb hab
    show (matgenCell E i j t).1.matrix a b = 1 ∨ (matgenCell E i j t).1.matrix a b = -1
    rw [matgenCell_matrix]
    unfold setCell
    by_cases hc : ((a : Int) = (i : Int) ∧ (b : Int) = (j : Int))
    · rw [if_pos hc]; exact matgenCell_value E i j t
    · rw [if_neg hc]
      apply ht a b hb
      rcases hab with h1 | ⟨h1, h2⟩
      · exact Or.inl h1
      · right
        refine ⟨h1, ?_⟩
        have : b ≠ j := by
          intro hbj
          exact hc ⟨by exact_mod_cast h1, by exact_mod_cast hbj⟩
        omega
  intro a b hb hab
  apply key a b hb
  rcases hab with h1 | ⟨_, h2⟩
  · by_cases ha : a = i
    · exact Or.inr ⟨ha, hb⟩
    · left; omega
  · omega

theorem matgen_spinValued {G : Type} (E : Extern G) (dim : Nat) (n0 : Int)
    (Sysmem : System G) : SpinValued dim (matgen E dim n0 Sysmem).matrix := by
  have key : FilledTo dim dim 0 (matgen E dim n0 Sysmem).matrix := by
    unfold matgen
    refine forLoop_invariant (fun i (t : System G × Int) => FilledTo dim i 0 t.1.matrix)
      dim _ (Sysmem, n0) ?_ ?_
    · intro a b _ hab
      omega
    · intro i t _ ht
      exact matgen_row E dim i t ht
  intro a b ha hb
  exact key a b hb (Or.inl ha)

/-! ## C1: the spin-domain invariant -/

/-- C1. After `matgen` every cell of the `dim x dim` lattice is `+1` or `-1`,
whatever the raw draws of the generator and the initial value of the local
`n`; `evolution` keeps every cell in `{+1, -1}` for every `Temp`, `B` and
generator; hence after `matgen` and any number `k` of sweeps every cell is
`+1` or `-1`. The side `dim` is arbitrary, `DIM = 30` included. -/
theorem C1_spin_domain {G : Type} (E : Extern G) (dim : Nat) (n0 : Int)
    (Sysmem : System G) (Prop_ : Properties) (k : Nat) :
    SpinValued dim (matgen E dim n0 Sysmem).matrix ∧
    (∀ (s : System G) (p : Properties), SpinValued dim s.matrix →
      SpinValued dim (evolution E dim p s).matrix) ∧
    SpinValued dim (sweeps E dim Prop_ k (matgen E dim n0 Sysmem)).matrix :=
  ⟨matgen_spinValued E dim n0 Sysmem,
   fun s p hs => evolution_spinValued E dim p s hs,
   sweeps_spinValued E dim Prop_ k _ (matgen_spinValued E dim n0 Sysmem)⟩

/-- Instance of C1 for the shipped side `DIM`, the counter generator, the
all-up lattice and three sweeps at temperature 300 and field 0. -/
theorem C1_spin_domain_witness :
    SpinValued DIM (matgen counterGen DIM 0 ⟨allUp, 0⟩).matrix ∧
    (SpinValued DIM allUp →
      SpinValued DIM (evolution counterGen DIM { zeroProp with Temp := 300 }
        ⟨allUp, 0⟩).matrix) ∧
    SpinValued DIM (sweeps counterGen DIM { zeroProp with Temp := 300 } 3
      (matgen counterGen DIM 0 ⟨allUp, 0⟩)).matrix :=
  ⟨(C1_spin_domain counterGen DIM 0 ⟨allUp, 0⟩ { zeroProp with Temp := 300 } 3).1,
   (C1_spin_domain counterGen DIM 0 ⟨allUp, 0⟩ { zeroProp with Temp := 300 } 3).2.1
     ⟨allUp, 0⟩ { zeroProp with Temp := 300 },
   (C1_spin_domain counterGen DIM 0 ⟨allUp, 0⟩ { zeroProp with Temp := 300 } 3).2.2⟩

/-! ## C4: periodic lookup through `S` -/

theorem wrapInt_of_range (z : Int) (h1 : -2147483648 ≤ z) (h2 : z ≤ INT_MAX) :
    wrapInt z = z := by
  unfold INT_MAX at h2
  unfold wrapInt
  norm_num
  omega

/-- Where `DIM + x` is not negative and does not overflow `int`, the index
expression taken in `int` is the index expression on the integers. -/
theorem idxInt_eq_idx (dim : Nat) (x : Int) (hx : -(dim : Int) ≤ x)
    (hmax : x + (dim : Int) ≤ INT_MAX) : idxInt dim x = idx dim x := by
  unfold idxInt idx
  rw [wrapInt_of_range _ (by omega) (by omega)]

/-- C4, counterexample. For `DIM = 30` the index expression of `S`, taken in
`int` as the program does, is `(30 + -31) % 30 = -1` for `x = -31`, by the
truncating remainder of C, and `-9` for `x = INT_MAX`, where `DIM + x`
overflows. Neither is `x mod DIM` (29 and 7), both are outside the array, so
the lookup at these `x` does not resolve to a cell, while the lookup at
`-31 + DIM` does. -/
theorem C4_counterexample :
    idxInt DIM (-31) = -1 ∧ (-31 : Int) % (DIM : Int) = 29 ∧
    SInt DIM allUp (-31) 0 = none ∧ SInt DIM allUp (-31 + (DIM : Int)) 0 = some 1 ∧
    idxInt DIM INT_MAX = -9 ∧ INT_MAX % (DIM : Int) = 7 ∧
    SInt DIM allUp INT_MAX 0 = none ∧ idx DIM (-31) = -1 := by
  decide

/-- C4, amended. For a lattice side `dim > 0` and all `int` values `x, y`
with `-dim <= x <= INT_MAX - dim` and `-dim <= y <= INT_MAX - dim` (negative
values down to `-dim` and values `>= dim` included), the indices of
`S(x, y)`, taken in `int`, are in `[0, dim)` and equal the non-negative
`x mod dim` and `y mod dim`, so the access resolves to the cell
`(x mod dim, y mod dim)`; they are the indices `idx` gives on the integers;
and `S(x + dim, y) = S(x, y)` when also `x <= INT_MAX - 2 * dim`,
`S(x, y + dim) = S(x, y)` when also `y <= INT_MAX - 2 * dim`. -/
theorem C4_periodic_lookup (dim : Nat) (m : Matrix) (x y : Int) (hdim : 0 < dim)
    (hx : -(dim : Int) ≤ x) (hx' : x + (dim : Int) ≤ INT_MAX)
    (hy : -(dim : Int) ≤ y) (hy' : y + (dim : Int) ≤ INT_MAX) :
    (0 ≤ idxInt dim x ∧ idxInt dim x < dim ∧ idxInt dim x = x % (dim : Int)) ∧
    (0 ≤ idxInt dim y ∧ idxInt dim y < dim ∧ idxInt dim y = y % (dim : Int)) ∧
    SInt dim m x y = some (m (x % (dim : Int)) (y % (dim : Int))) ∧
    (idxInt dim x = idx dim x ∧ idxInt dim y = idx dim y ∧
      SInt dim m x y = some (S dim m x y)) ∧
    (x + 2 * (dim : Int) ≤ INT_MAX → SInt dim m (x + dim) y = SInt dim m x y) ∧
    (y + 2 * (dim : Int) ≤ INT_MAX → SInt dim m x (y + dim) = SInt dim m x y) := by
  have hd : (0 : Int) < (dim : Int) := by exact_mod_cast hdim
  have hd' : (dim : Int) ≠ 0 := ne_of_gt hd
  have ix := idxInt_eq_idx dim x hx hx'
  have iy := idxInt_eq_idx dim y hy hy'
  have ex : idxInt dim x = x % (dim : Int) := by rw [ix, idx_of_ge_neg dim x hx]
  have ey : idxInt dim y = y % (dim : Int) := by rw [iy, idx_of_ge_neg dim y hy]
  have bx : 0 ≤ idxInt dim x ∧ idxInt dim x < (dim : Int) := by
    rw [ex]; exact ⟨Int.emod_nonneg x hd', Int.emod_lt_of_pos x hd⟩
  have by_ : 0 ≤ idxInt dim y ∧ idxInt dim y < (dim : Int) := by
    rw [ey]; exact ⟨Int.emod_nonneg y hd', Int.emod_lt_of_pos y hd⟩
  have hS : SInt dim m x y = some (m (idxInt dim x) (idxInt dim y)) := by
    unfold SInt
    rw [if_pos ⟨bx.1, bx.2, by_.1, by_.2⟩]
  refine ⟨⟨bx.1, bx.2, ex⟩, ⟨by_.1, by_.2, ey⟩, ?_, ⟨ix, iy, ?_⟩, ?_, ?_⟩
  · rw [hS, ex, ey]
  · rw [hS, ix, iy]; rfl
  · intro h2
    have ex' : idxInt dim (x + dim) = idxInt dim x := by
      rw [idxInt_eq_idx dim (x + dim) (by omega) (by omega),
        idx_of_ge_neg dim (x + dim) (by omega), ex, Int.add_emod_self]
    unfold SInt
    rw [ex']
  · intro h2
    have ey' : idxInt dim (y + dim) = idxInt dim y := by
      rw [idxInt_eq_idx dim (y + dim) (by omega) (by omega),
        idx_of_ge_neg dim (y + dim) (by omega), ey, Int.add_emod_self]
    unfold SInt
    rw [ey']

/-- Instance of the amended C4 at `DIM = 30`, `x = -30` and `y = 61`. -/
theorem C4_periodic_lookup_witness :
    (0 : Nat) < DIM ∧ -(DIM : Int) ≤ -30 ∧ (-30 : Int) + (DIM : Int) ≤ INT_MAX ∧
    -(DIM : Int) ≤ 61 ∧ (61 : Int) + (DIM : Int) ≤ INT_MAX ∧
    (0 ≤ idxInt DIM (-30) ∧ idxInt DIM (-30) < DIM ∧ idxInt DIM (-30) = (-30) % (DIM : Int)) ∧
    (0 ≤ idxInt DIM 61 ∧ idxInt DIM 61 < DIM ∧ idxInt DIM 61 = 61 % (DIM : Int)) ∧
    SInt DIM allUp (-30) 61 = some (allUp ((-30) % (DIM : Int)) (61 % (DIM : Int))) ∧
    (idxInt DIM (-30) = idx DIM (-30) ∧ idxInt DIM 61 = idx DIM 61 ∧
      SInt DIM allUp (-30) 61 = some (S DIM allUp (-30) 61)) ∧
    ((-30 : Int) + 2 * (DIM : Int) ≤ INT_MAX →
      SInt DIM allUp (-30 + DIM) 61 = SInt DIM allUp (-30) 61) ∧
    ((61 : Int) + 2 * (DIM : Int) ≤ INT_MAX →
      SInt DIM allUp (-30) (61 + DIM) = SInt DIM allUp (-30) 61) :=
  ⟨by decide, by decide, by decide, by decide, by decide,
    C4_periodic_lookup DIM allUp (-30) 61 (by decide) (by decide) (by decide) (by decide)
      (by decide)⟩

/-! ## C7: unconditional acceptance -/

theorem S_flipSite_self (dim : Nat) (m : Matrix) (x y : Int) :
    S dim (flipSite dim m x y) x y = -(S dim m x y) := by
  simp [S, flipSite, setS, setCell]

/-- C7. In one proposal of `evolution`, with `(x, y)` the site drawn by the
two calls of `gsl_rng_uniform_int`: if `delta_E <= 0` then the proposal
negates the spin at `(x, y)` and changes no other cell, and the generator is
left in the state after the second site draw, so `gsl_rng_uniform` is not
called and neither it nor `exp` has any influence on the result. -/
theorem C7_unconditional_acceptance {G : Type} (E : Extern G) (dim : Nat)
    (Prop_ : Properties) (Sysmem : System G)
    (h : delta_E dim Sysmem.matrix Prop_.B
      ((E.gsl_rng_uniform_int Sysmem.Rangen dim).1 : Int)
      ((E.gsl_rng_uniform_int (E.gsl_rng_uniform_int Sysmem.Rangen dim).2 dim).1 : Int)
        ≤ 0) :
    (proposal E dim Prop_ Sysmem).matrix =
      flipSite dim Sysmem.matrix
        ((E.gsl_rng_uniform_int Sysmem.Rangen dim).1 : Int)
        ((E.gsl_rng_uniform_int (E.gsl_rng_uniform_int Sysmem.Rangen dim).2 dim).1 : Int) ∧
    S dim (proposal E dim Prop_ Sysmem).matrix
        ((E.gsl_rng_uniform_int Sysmem.Rangen dim).1 : Int)
        ((E.gsl_rng_uniform_int (E.gsl_rng_uniform_int Sysmem.Rangen dim).2 dim).1 : Int) =
      -(S dim Sysmem.matrix
        ((E.gsl_rng_uniform_int Sysmem.Rangen dim).1 : Int)
        ((E.gsl_rng_uniform_int (E.gsl_rng_uniform_int Sysmem.Rangen dim).2 dim).1 : Int)) ∧
    (proposal E dim Prop_ Sysmem).Rangen =
      (E.gsl_rng_uniform_int (E.gsl_rng_uniform_int Sysmem.Rangen dim).2 dim).2 := by
  have hp : proposal E dim Prop_ Sysmem =
      { matrix := flipSite dim Sysmem.matrix
          ((E.gsl_rng_uniform_int Sysmem.Rangen dim).1 : Int)
          ((E.gsl_rng_uniform_int (E.gsl_rng_uniform_int Sysmem.Rangen dim).2 dim).1 : Int),
        Rangen := (E.gsl_rng_uniform_int (E.gsl_rng_uniform_int Sysmem.Rangen dim).2 dim).2 } := by
    unfold proposal
    dsimp only
    rw [if_pos h]
    rfl
  rw [hp]
  exact ⟨rfl, S_flipSite_self dim _ _ _, rfl⟩

/-- Instance of C7 at `DIM = 30`: the all-up lattice in the field `B = -10000`
with the counter generator, which draws the site `(0, 1)`. -/
theorem C7_unconditional_acceptance_witness :
    delta_E DIM allUp (-10000) 0 1 ≤ 0 ∧
    (proposal counterGen DIM { zeroProp with Temp := 300, B := -10000 } ⟨allUp, 0⟩).matrix =
      flipSite DIM allUp 0 1 ∧
    S DIM (proposal counterGen DIM { zeroProp with Temp := 300, B := -10000 }
      ⟨allUp, 0⟩).matrix 0 1 = -(S DIM allUp 0 1) ∧
    (proposal counterGen DIM { zeroProp with Temp := 300, B := -10000 } ⟨allUp, 0⟩).Rangen
      = 2 :=
  have h : delta_E DIM allUp (-10000) 0 1 ≤ 0 := by
    simp only [delta_E, S, allUp, J, MU_B]
    norm_num
  ⟨h, C7_unconditional_acceptance counterGen DIM
    { zeroProp with Temp := 300, B := -10000 } ⟨allUp, 0⟩ h⟩

/-! ## The `-D` mode -/

theorem domainStep_running {G : Type} (E : Extern G) (dim : Nat) (p : Properties)
    (image : Int) (himage : image ≠ 0) (i : Nat) (r : Run G) (hr : r.halted = none) :
    (domainStep E dim p image i r).halted = none ∧
    (domainStep E dim p image i r).sweeps = r.sweeps + 1 ∧
    (domainStep E dim p image i r).Sysmem = evolution E dim p r.Sysmem ∧
    snapshotIndices (domainStep E dim p image i r) =
      snapshotIndices r ++ (if Int.tmod (i : Int) image = 0 then [i] else []) := by
  unfold domainStep
  rw [hr]
  dsimp only
  rw [if_neg himage]
  by_cases h : Int.tmod (i : Int) image = 0
  · rw [if_pos h, if_pos h]
    simp [snapshotIndices]
  · rw [if_neg h, if_neg h]
    simp [snapshotIndices]

/-- With a non-zero interval the loop of the `-D` mode never stops early,
calls `evolution` once per index, and writes a snapshot exactly at the
indices that the interval divides. -/
theorem domainLoop_running {G : Type} (E : Extern G) (dim : Nat) (p : Properties)
    (image : Int) (himage : image ≠ 0) (s : System G) (n : Nat) :
    (forLoop n (fun i r => domainStep E dim p image i r)
        { Sysmem := s, sweeps := 0, frames := [], halted := none }).halted = none ∧
    (forLoop n (fun i r => domainStep E dim p image i r)
        { Sysmem := s, sweeps := 0, frames := [], halted := none }).sweeps = n ∧
    (forLoop n (fun i r => domainStep E dim p image i r)
        { Sysmem := s, sweeps := 0, frames := [], halted := none }).Sysmem
      = sweeps E dim p n s ∧
    snapshotIndices (forLoop n (fun i r => domainStep E dim p image i r)
        { Sysmem := s, sweeps := 0, frames := [], halted := none }) =
      (List.range n).filter (fun i : Nat => decide (Int.tmod (i : Int) image = 0)) := by
  induction n with
  | zero => exact ⟨rfl, rfl, rfl, rfl⟩
  | succ k ih =>
    rw [forLoop_succ]
    obtain ⟨h1, h2, h3, h4⟩ := ih
    obtain ⟨g1, g2, g3, g4⟩ := domainStep_running E dim p image himage k _ h1
    refine ⟨g1, ?_, ?_, ?_⟩
    · rw [g2, h2]
    · rw [g3, h3]; rfl
    · rw [g4, h4, List.range_succ, List.filter_append]
      congr 1
      by_cases h : Int.tmod (k : Int) image = 0
      · simp [h]
      · simp [h]

theorem caseD_valid {G : Type} (E : Extern G) (dim : Nat) (Temp B : ℚ)
    (output_number : Int) (s : System G) (p : Properties)
    (hT : 0 < Temp) (hz : 0 < output_number) (hi : Int.tdiv 5000 output_number ≠ 0) :
    (caseD E dim Temp B output_number s p).halted = none ∧
    (caseD E dim Temp B output_number s p).sweeps = 5000 ∧
    snapshotIndices (caseD E dim Temp B output_number s p) =
      (List.range 5000).filter
        (fun i : Nat => decide (Int.tmod (i : Int) (Int.tdiv 5000 output_number) = 0)) := by
  unfold caseD
  dsimp only
  rw [if_neg (not_le.mpr hT), if_neg (not_le.mpr hz)]
  obtain ⟨h1, h2, _, h4⟩ := domainLoop_running E dim
    { p with Temp := Temp, B := B } (Int.tdiv 5000 output_number) hi s 5000
  exact ⟨h1, h2, h4⟩

set_option maxRecDepth 100000 in
/-- The indices below 5000 that the interval `5000 / 3 = 1666` divides. -/
theorem multiples_of_interval_three :
    (List.range 5000).filter
      (fun i : Nat => decide (Int.tmod (i : Int) (Int.tdiv 5000 3) = 0))
      = [0, 1666, 3332, 4998] := by
  decide

/-- C3, the code at the failing input `-D 5 0 3`. With temperature 5, field 0
and image count 3 the run passes validation, executes all 5000 sweeps with
the interval `5000 / 3 = 1666`, and writes a snapshot at the sweep indices
0, 1666, 3332 and 4998: four snapshots, not the three requested. -/
theorem C3_image_count_three {G : Type} (E : Extern G) (Sysmem : System G)
    (Prop_ : Properties) :
    (caseD E DIM 5 0 3 Sysmem Prop_).halted = none ∧
    (caseD E DIM 5 0 3 Sysmem Prop_).sweeps = 5000 ∧
    snapshotIndices (caseD E DIM 5 0 3 Sysmem Prop_) = [0, 1666, 3332, 4998] ∧
    (snapshotIndices (caseD E DIM 5 0 3 Sysmem Prop_)).length = 4 := by
  obtain ⟨h1, h2, h3⟩ := caseD_valid E DIM 5 0 3 Sysmem Prop_ (by norm_num) (by norm_num)
    (by decide)
  rw [multiples_of_interval_three] at h3
  refine ⟨h1, h2, h3, ?_⟩
  rw [h3]
  rfl

/-! ## Running moments -/

theorem mean_append_singleton (l : List ℚ) (v : ℚ) (hl : l ≠ []) :
    (mean l * (l.length : ℚ) + v) / ((l.length + 1 : Nat) : ℚ) = mean (l ++ [v]) := by
  have hlen : (l.length : ℚ) ≠ 0 := by
    have : l.length ≠ 0 := fun h => hl (List.length_eq_zero.mp h)
    exact_mod_cast this
  unfold mean
  rw [div_mul_cancel₀ _ hlen, List.sum_append, List.length_append]
  simp

theorem feed_append_singleton {G : Type} (E : Extern G) (p : Properties) (seed : ℚ × ℚ)
    (obs : List (ℚ × ℚ)) (o : ℚ × ℚ) :
    feed E p seed (obs ++ [o]) =
      (accumulate E (observe (feed E p seed obs).1 o) (feed E p seed obs).2,
        (feed E p seed obs).2 + 1) := by
  simp [feed, List.foldl_append]

/-- The running moments after a seed and the observations `obs`. -/
theorem feed_means {G : Type} (E : Extern G) (p : Properties) (seed : ℚ × ℚ)
    (obs : List (ℚ × ℚ)) :
    (feed E p seed obs).2 = obs.length + 1 ∧
    (feed E p seed obs).1.Energy_av = mean ((seed :: obs).map Prod.fst) ∧
    (feed E p seed obs).1.Energy_avsquare = mean ((seed :: obs).map (fun o => o.1 * o.1)) ∧
    (feed E p seed obs).1.Mag_av = mean ((seed :: obs).map Prod.snd) ∧
    (feed E p seed obs).1.Mag_avsquare = mean ((seed :: obs).map (fun o => o.2 * o.2)) := by
  induction obs using List.reverseRecOn with
  | nil =>
    refine ⟨rfl, ?_, ?_, ?_, ?_⟩ <;> simp [feed, seedMag, seedEnergy, observe, mean]
  | append_singleton l o ih =>
    obtain ⟨hx, h1, h2, h3, h4⟩ := ih
    rw [feed_append_singleton]
    have hlen : ∀ f : ℚ × ℚ → ℚ, ((seed :: l).map f).length = l.length + 1 := by
      intro f; simp
    have hne : ∀ f : ℚ × ℚ → ℚ, (seed :: l).map f ≠ [] := by
      intro f; simp
    have hsplit : ∀ f : ℚ × ℚ → ℚ,
        (seed :: (l ++ [o])).map f = (seed :: l).map f ++ [f o] := by
      intro f; simp
    refine ⟨?_, ?_, ?_, ?_, ?_⟩
    · simp [hx]
    · show ((feed E p seed l).1.Energy_av * (((feed E p seed l).2 : Nat) : ℚ) + o.1) /
          (((feed E p seed l).2 + 1 : Nat) : ℚ) = _
      rw [hsplit, ← mean_append_singleton _ _ (hne _), hlen, h1, hx]
    · show ((feed E p seed l).1.Energy_avsquare * (((feed E p seed l).2 : Nat) : ℚ)
          + o.1 * o.1) / (((feed E p seed l).2 + 1 : Nat) : ℚ) = _
      rw [hsplit, ← mean_append_singleton _ _ (hne _), hlen, h2, hx]
    · show ((feed E p seed l).1.Mag_av * (((feed E p seed l).2 : Nat) : ℚ) + o.2) /
          (((feed E p seed l).2 + 1 : Nat) : ℚ) = _
      rw [hsplit, ← mean_append_singleton _ _ (hne _), hlen, h3, hx]
    · show ((feed E p seed l).1.Mag_avsquare * (((feed E p seed l).2 : Nat) : ℚ)
          + o.2 * o.2) / (((feed E p seed l).2 + 1 : Nat) : ℚ) = _
      rw [hsplit, ← mean_append_singleton _ _ (hne _), hlen, h4, hx]

/-! ## Closed forms of the loops of `energy` and `magnetisation` -/

theorem energy_inner (dim : Nat) (m : Matrix) (x : Nat) (n : Nat) (p : Properties) :
    forLoop n (fun y p' =>
      { p' with Energy := p'.Energy - (S dim m x y : ℚ) *
          (J * ((S dim m (x + 1) y + S dim m x (y + 1) : Int) : ℚ) + MU_B * p'.B) }) p
    = { p with Energy := p.Energy - ∑ y ∈ Finset.range n, siteEnergy dim m p.B x y } := by
  induction n with
  | zero => simp [forLoop]
  | succ k ih =>
    rw [forLoop_succ, ih, Finset.sum_range_succ]
    simp only [siteEnergy]
    congr 1
    ring

theorem energy_outer (dim : Nat) (m : Matrix) (n : Nat) (p : Properties) :
    forLoop n (fun x p => forLoop dim (fun y p' =>
      { p' with Energy := p'.Energy - (S dim m x y : ℚ) *
          (J * ((S dim m (x + 1) y + S dim m x (y + 1) : Int) : ℚ) + MU_B * p'.B) }) p) p
    = { p with Energy := p.Energy -
        ∑ x ∈ Finset.range n, ∑ y ∈ Finset.range dim, siteEnergy dim m p.B x y } := by
  induction n with
  | zero => simp [forLoop]
  | succ k ih =>
    rw [forLoop_succ, ih, energy_inner, Finset.sum_range_succ]
    congr 1
    ring

/-- The function `energy` changes only the field `Energy`, which becomes
minus the sum of the site terms. -/
theorem energy_eq (dim : Nat) (m : Matrix) (p : Properties) :
    energy dim m p = { p with Energy :=
      (-∑ x ∈ Finset.range dim, ∑ y ∈ Finset.range dim, siteEnergy dim m p.B x y) } := by
  unfold energy
  rw [energy_outer]
  simp

theorem energy_Energy (dim : Nat) (m : Matrix) (p : Properties) :
    (energy dim m p).Energy =
      -∑ x ∈ Finset.range dim, ∑ y ∈ Finset.range dim, siteEnergy dim m p.B x y := by
  rw [energy_eq]

theorem spinSum_inner (dim : Nat) (m : Matrix) (x : Nat) (n : Nat) (a : ℚ) :
    forLoop n (fun y s' => s' + (S dim m x y : ℚ)) a
      = a + ∑ y ∈ Finset.range n, (S dim m x y : ℚ) := by
  induction n with
  | zero => simp [forLoop]
  | succ k ih => rw [forLoop_succ, ih, Finset.sum_range_succ]; ring

theorem spinSum_outer (dim : Nat) (m : Matrix) (n : Nat) (a : ℚ) :
    forLoop n (fun x s => forLoop dim (fun y s' => s' + (S dim m x y : ℚ)) s) a
      = a + ∑ x ∈ Finset.range n, ∑ y ∈ Finset.range dim, (S dim m x y : ℚ) := by
  induction n with
  | zero => simp [forLoop]
  | succ k ih => rw [forLoop_succ, ih, spinSum_inner, Finset.sum_range_succ]; ring

theorem spinSum_eq (dim : Nat) (m : Matrix) :
    spinSum dim m = ∑ x ∈ Finset.range dim, ∑ y ∈ Finset.range dim, (S dim m x y : ℚ) := by
  unfold spinSum
  rw [spinSum_outer]
  simp

/-! ## The sampling loop of `stats` -/

theorem proposal_congr {G : Type} (E : Extern G) (dim : Nat) (p q : Properties)
    (hB : p.B = q.B) (hT : p.Temp = q.Temp) (s : System G) :
    proposal E dim p s = proposal E dim q s := by
  unfold proposal
  rw [hB, hT]

/-- The function `evolution` reads only `B` and `Temp` of the record. -/
theorem evolution_congr {G : Type} (E : Extern G) (dim : Nat) (p q : Properties)
    (hB : p.B = q.B) (hT : p.Temp = q.Temp) (s : System G) :
    evolution E dim p s = evolution E dim q s := by
  unfold evolution
  have h : (fun (_ : Nat) (s : System G) => proposal E dim p s) =
      (fun (_ : Nat) (s : System G) => proposal E dim q s) := by
    funext _ t
    exact proposal_congr E dim p q hB hT t
  rw [h]

theorem sweeps_succ {G : Type} (E : Extern G) (dim : Nat) (p : Properties) (k : Nat)
    (s : System G) :
    sweeps E dim p (k + 1) s = evolution E dim p (sweeps E dim p k s) := rfl

theorem forLoop_add {σ : Type} (a b : Nat) (f : σ → σ) (s : σ) :
    forLoop b (fun _ t => f t) (forLoop a (fun _ t => f t) s)
      = forLoop (a + b) (fun _ t => f t) s := by
  induction b with
  | zero => rfl
  | succ k ih => rw [← Nat.add_assoc, forLoop_succ, forLoop_succ, ih]

theorem measure_eq_observe {G : Type} (E : Extern G) (dim : Nat) (p q : Properties)
    (s : System G) (n : Nat) (hB : q.B = p.B) :
    magnetisation dim (sweeps E dim p n s).matrix (energy dim (sweeps E dim p n s).matrix q)
      = observe q (measured E dim p s n) := by
  unfold measured observe magnetisation
  rw [energy_eq, energy_Energy, hB]

theorem feed_B_Temp {G : Type} (E : Extern G) (p : Properties) (seed : ℚ × ℚ)
    (obs : List (ℚ × ℚ)) :
    (feed E p seed obs).1.B = p.B ∧ (feed E p seed obs).1.Temp = p.Temp := by
  induction obs using List.reverseRecOn with
  | nil => exact ⟨rfl, rfl⟩
  | append_singleton l o ih =>
    rw [feed_append_singleton]
    exact ih

/-- The state of `stats` after `k` iterations of its sampling loop: the
lattice has gone through `1000 + k` sweeps, `x` is `k + 1`, and the record
is the one the moment updates produce from the measurement after sweep 1000
and the measurements after each of the `k` following sweeps. -/
theorem statsLoop_eq {G : Type} (E : Extern G) (dim : Nat) (s : System G)
    (p : Properties) (k : Nat) :
    statsLoop E dim k s p =
      { Sysmem := sweeps E dim p (1000 + k) s,
        Prop_ := (feed E p (measured E dim p s 1000)
          ((List.range k).map (fun i => measured E dim p s (1000 + i + 1)))).1,
        x := k + 1 } := by
  induction k with
  | zero =>
    have e0 : statsLoop E dim 0 s p = statsInit E dim s p := rfl
    have e1 : sweeps E dim p (1000 + 0) s
        = forLoop 1000 (fun _ t => evolution E dim p t) s := rfl
    rw [e0, e1]
    unfold statsInit
    simp only [List.range_zero, List.map_nil, feed, List.foldl_nil, measured, sweeps,
      energy_eq]
    rfl
  | succ k ih =>
    unfold statsLoop at ih ⊢
    rw [forLoop_succ, ih]
    have hq := feed_B_Temp E p (measured E dim p s 1000)
      ((List.range k).map (fun i => measured E dim p s (1000 + i + 1)))
    have hx := (feed_means E p (measured E dim p s 1000)
      ((List.range k).map (fun i => measured E dim p s (1000 + i + 1)))).1
    rw [List.length_map, List.length_range] at hx
    unfold statsStep
    dsimp only
    rw [evolution_congr E dim _ p hq.1 hq.2, ← sweeps_succ,
      measure_eq_observe E dim p _ s (1000 + k + 1) hq.1,
      List.range_succ, List.map_append, List.map_singleton, feed_append_singleton, hx]
    rfl

/-! ## C5 and C6: the accumulator of `stats` -/

/-- C5. The moment updates of `stats`, started from a seed observation with
`x = 1` and fed any observations `obs`, one per iteration with
`av_new = (av_old * x + v) / (x + 1)` and `x` incremented, leave in exact
arithmetic `Energy_av` equal to the arithmetic mean of all energy values fed
so far, `Energy_avsquare` equal to the mean of their squares, and likewise
`Mag_av` and `Mag_avsquare` for the magnetisation values, with `x` the number
of values fed; and the record of `stats` after `k` iterations of its loop is
the result of these updates on the values it measures. -/
theorem C5_running_moments {G : Type} (E : Extern G) (p : Properties) (seed : ℚ × ℚ)
    (obs : List (ℚ × ℚ)) (dim : Nat) (s : System G) (k : Nat) :
    ((feed E p seed obs).2 = obs.length + 1 ∧
     (feed E p seed obs).1.Energy_av = mean ((seed :: obs).map Prod.fst) ∧
     (feed E p seed obs).1.Energy_avsquare
        = mean ((seed :: obs).map (fun o => o.1 * o.1)) ∧
     (feed E p seed obs).1.Mag_av = mean ((seed :: obs).map Prod.snd) ∧
     (feed E p seed obs).1.Mag_avsquare
        = mean ((seed :: obs).map (fun o => o.2 * o.2))) ∧
    ((statsLoop E dim k s p).Prop_ =
        (feed E p (measured E dim p s 1000)
          ((List.range k).map (fun i => measured E dim p s (1000 + i + 1)))).1 ∧
     (statsLoop E dim k s p).x =
        (feed E p (measured E dim p s 1000)
          ((List.range k).map (fun i => measured E dim p s (1000 + i + 1)))).2) := by
  refine ⟨feed_means E p seed obs, ?_, ?_⟩
  · rw [statsLoop_eq]
  · rw [statsLoop_eq, (feed_means E p _ _).1, List.length_map, List.length_range]

theorem measured_list {G : Type} (E : Extern G) (dim : Nat) (p : Properties)
    (s : System G) (k : Nat) (f : ℚ × ℚ → ℚ) :
    (measured E dim p s 1000 ::
        (List.range k).map (fun i => measured E dim p s (1000 + i + 1))).map f
      = (List.range (k + 1)).map (fun i => f (measured E dim p s (1000 + i))) := by
  rw [List.range_succ_eq_map]
  simp [Function.comp_def, Nat.add_assoc]

/-- The state of `stats` after `k` iterations of its sampling loop, with
the means written out. -/
theorem statsLoop_result {G : Type} (E : Extern G) (dim : Nat) (s : System G)
    (p : Properties) (k : Nat) :
    (statsLoop E dim k s p).Sysmem = sweeps E dim p (1000 + k) s ∧
    (statsLoop E dim k s p).x = k + 1 ∧
    (statsLoop E dim k s p).Prop_.Energy_av =
      mean ((List.range (k + 1)).map (fun i => (measured E dim p s (1000 + i)).1)) ∧
    (statsLoop E dim k s p).Prop_.Mag_av =
      mean ((List.range (k + 1)).map (fun i => (measured E dim p s (1000 + i)).2)) := by
  rw [statsLoop_eq]
  obtain ⟨_, h1, _, h3, _⟩ := feed_means E p (measured E dim p s 1000)
    ((List.range k).map (fun i => measured E dim p s (1000 + i + 1)))
  refine ⟨rfl, rfl, ?_, ?_⟩
  · show (feed E p _ _).1.Energy_av = _
    rw [h1, measured_list]
  · show (feed E p _ _).1.Mag_av = _
    rw [h3, measured_list]

/-- What `stats` returns: the lattice after `1000 + EVOLVE` sweeps, `x` equal
to `EVOLVE + 1`, and the means of the `EVOLVE + 1` measurements taken after
sweep 1000 and after each sampling sweep. -/
theorem stats_result {G : Type} (E : Extern G) (dim : Nat) (s : System G)
    (p : Properties) :
    (stats E dim s p).Sysmem = sweeps E dim p (1000 + EVOLVE) s ∧
    (stats E dim s p).x = EVOLVE + 1 ∧
    (stats E dim s p).Prop_.Energy_av =
      mean ((List.range (EVOLVE + 1)).map (fun i => (measured E dim p s (1000 + i)).1)) ∧
    (stats E dim s p).Prop_.Mag_av =
      mean ((List.range (EVOLVE + 1)).map (fun i => (measured E dim p s (1000 + i)).2)) :=
  statsLoop_result E dim s p EVOLVE

/-- C6, amended. `stats` runs 1000 unmeasured sweeps and then `EVOLVE`
sampling sweeps, with one update of the accumulator per sampling sweep on top
of the seed taken after sweep 1000: on return the lattice has gone through
`1000 + EVOLVE` sweeps, the number of samples is `EVOLVE + 1`, and
`Energy_av` and `Mag_av` are the arithmetic means of the `EVOLVE + 1` energy
and magnetisation values measured after sweep 1000 and after each of the
`EVOLVE` sampling sweeps. -/
theorem C6_stats_samples {G : Type} (E : Extern G) (dim : Nat) (Sysmem : System G)
    (Prop_ : Properties) :
    (stats E dim Sysmem Prop_).Sysmem = sweeps E dim Prop_ (1000 + EVOLVE) Sysmem ∧
    (stats E dim Sysmem Prop_).x = EVOLVE + 1 ∧
    (stats E dim Sysmem Prop_).Prop_.Energy_av =
      mean ((List.range (EVOLVE + 1)).map
        (fun i => (measured E dim Prop_ Sysmem (1000 + i)).1)) ∧
    (stats E dim Sysmem Prop_).Prop_.Mag_av =
      mean ((List.range (EVOLVE + 1)).map
        (fun i => (measured E dim Prop_ Sysmem (1000 + i)).2)) :=
  stats_result E dim Sysmem Prop_

/-! ## Sums over the periodic lattice -/

theorem idx_succ_of_lt (k : Nat) (x : Nat) (hx : x < k) :
    idx (k + 1) ((x : Int) + 1) = ((x + 1 : Nat) : Int) := by
  have h := idx_of_lt (k + 1) (x + 1) (by omega)
  rw [← h]
  push_cast
  rfl

theorem idx_succ_last (k : Nat) : idx (k + 1) ((k : Int) + 1) = 0 := by
  rw [idx_of_nonneg _ _ (by omega)]
  push_cast
  exact Int.emod_self

theorem idx_pred_of_pos (k : Nat) (x : Nat) (hx : x < k) :
    idx (k + 1) (((x + 1 : Nat) : Int) - 1) = (x : Int) := by
  have h := idx_of_lt (k + 1) x (by omega)
  rw [← h]
  push_cast
  congr 1
  ring

theorem idx_pred_zero (k : Nat) : idx (k + 1) (((0 : Nat) : Int) - 1) = (k : Int) := by
  unfold idx
  have h : (((k + 1 : Nat) : Int) + (((0 : Nat) : Int) - 1)) = (k : Int) := by
    push_cast; ring
  rw [h, Int.tmod_eq_emod (by omega) (by omega)]
  exact Int.emod_eq_of_lt (by omega) (by push_cast; omega)

/-- Summing over a cycle: pairing every index with its successor is the same
as pairing every index with its predecessor. -/
theorem cyclic_shift (dim : Nat) (F : Int → Int → ℚ) :
    ∑ x ∈ Finset.range dim, F x (idx dim ((x : Int) + 1))
      = ∑ x ∈ Finset.range dim, F (idx dim ((x : Int) - 1)) x := by
  cases dim with
  | zero => simp
  | succ k =>
    rw [Finset.sum_range_succ, Finset.sum_range_succ', idx_succ_last, idx_pred_zero]
    congr 1
    apply Finset.sum_congr rfl
    intro x hx
    rw [Finset.mem_range] at hx
    rw [idx_succ_of_lt k x hx, idx_pred_of_pos k x hx]

/-- The forward bonds of `u` with `v` are the backward bonds of `v` with
`u`. -/
theorem fwd_eq_bwd (dim : Nat) (u v : Int → Int → ℚ) : fwd dim u v = bwd dim v u := by
  unfold fwd bwd
  simp only [mul_add, Finset.sum_add_distrib]
  congr 1
  · have h := cyclic_shift dim
      (fun a b => ∑ y ∈ Finset.range dim, u a y * v b y)
    simp only at h
    rw [h]
    apply Finset.sum_congr rfl
    intro x _
    apply Finset.sum_congr rfl
    intro y _
    ring
  · apply Finset.sum_congr rfl
    intro x _
    have h := cyclic_shift dim (fun a b => u x a * v x b)
    simp only at h
    rw [h]
    apply Finset.sum_congr rfl
    intro y _
    ring

theorem siteEnergy_eq (dim : Nat) (m : Matrix) (B : ℚ) (x y : Nat)
    (hx : x < dim) (hy : y < dim) :
    siteEnergy dim m B x y = J * (castM m x y *
      (castM m (idx dim ((x : Int) + 1)) y + castM m x (idx dim ((y : Int) + 1))))
      + MU_B * B * castM m x y := by
  unfold siteEnergy S castM
  rw [idx_of_lt dim x hx, idx_of_lt dim y hy]
  push_cast
  ring

/-- The energy in terms of the forward bonds and the total spin. -/
theorem energy_fwd (dim : Nat) (m : Matrix) (p : Properties) :
    (energy dim m p).Energy =
      -(J * fwd dim (castM m) (castM m) + MU_B * p.B * total dim (castM m)) := by
  rw [energy_Energy]
  unfold fwd total
  rw [Finset.mul_sum, Finset.mul_sum, ← Finset.sum_add_distrib]
  congr 1
  apply Finset.sum_congr rfl
  intro x hx
  rw [Finset.mul_sum, Finset.mul_sum, ← Finset.sum_add_distrib]
  apply Finset.sum_congr rfl
  intro y hy
  rw [Finset.mem_range] at hx hy
  exact siteEnergy_eq dim m p.B x y hx hy

/-! ## C9 and C10: symmetries of `energy` -/

theorem fwd_neg_neg (dim : Nat) (u v : Int → Int → ℚ) :
    fwd dim (fun i j => -u i j) (fun i j => -v i j) = fwd dim u v := by
  unfold fwd
  apply Finset.sum_congr rfl
  intro x _
  apply Finset.sum_congr rfl
  intro y _
  ring

theorem castM_negateAll (m : Matrix) : castM (negateAll m) = fun i j => -castM m i j := by
  funext i j
  simp [castM, negateAll]

/-- C9. With `B = 0`, `energy` is invariant under global spin reversal: for
every lattice of every side, the energy of the lattice with every spin
negated equals the energy of the original lattice. -/
theorem C9_energy_global_reversal (dim : Nat) (m : Matrix) (Prop_ : Properties) :
    (energy dim (negateAll m) { Prop_ with B := 0 }).Energy
      = (energy dim m { Prop_ with B := 0 }).Energy := by
  rw [energy_fwd, energy_fwd, castM_negateAll, fwd_neg_neg]
  simp

/-- The sum over all sites of the spin times its four neighbours, read
through the macro `S`, is the sum of the backward and the forward bonds. -/
theorem both_ends_sum (dim : Nat) (m : Matrix) :
    (∑ x ∈ Finset.range dim, ∑ y ∈ Finset.range dim,
      (S dim m x y : ℚ) * ((S dim m ((x : Int) - 1) y + S dim m ((x : Int) + 1) y
        + S dim m x ((y : Int) - 1) + S dim m x ((y : Int) + 1) : Int) : ℚ))
      = bwd dim (castM m) (castM m) + fwd dim (castM m) (castM m) := by
  unfold bwd fwd
  rw [← Finset.sum_add_distrib]
  apply Finset.sum_congr rfl
  intro x hx
  rw [← Finset.sum_add_distrib]
  apply Finset.sum_congr rfl
  intro y hy
  rw [Finset.mem_range] at hx hy
  unfold S castM
  rw [idx_of_lt dim x hx, idx_of_lt dim y hy]
  push_cast
  ring

theorem spin_total (dim : Nat) (m : Matrix) :
    (∑ x ∈ Finset.range dim, ∑ y ∈ Finset.range dim, (S dim m x y : ℚ))
      = total dim (castM m) := by
  unfold total
  apply Finset.sum_congr rfl
  intro x hx
  apply Finset.sum_congr rfl
  intro y hy
  rw [Finset.mem_range] at hx hy
  rw [S_of_lt dim m x y hx hy]
  rfl

/-- C10. `energy` counts each nearest-neighbour bond once: for every lattice
with periodic wrap, every side and every `B`, the value it computes from the
forward neighbours equals `-(J/2)` times the sum over all sites of
`S(x,y)*(S(x-1,y)+S(x+1,y)+S(x,y-1)+S(x,y+1))`, which visits every bond from
both of its ends, minus `MU_B*B` times the sum over all sites of `S(x,y)`. -/
theorem C10_energy_counts_bonds_once (dim : Nat) (m : Matrix) (Prop_ : Properties) :
    (energy dim m Prop_).Energy =
      -(J / 2) * (∑ x ∈ Finset.range dim, ∑ y ∈ Finset.range dim,
        (S dim m x y : ℚ) * ((S dim m ((x : Int) - 1) y + S dim m ((x : Int) + 1) y
          + S dim m x ((y : Int) - 1) + S dim m x ((y : Int) + 1) : Int) : ℚ))
      - MU_B * Prop_.B *
        (∑ x ∈ Finset.range dim, ∑ y ∈ Finset.range dim, (S dim m x y : ℚ)) := by
  rw [energy_fwd, both_ends_sum, spin_total, ← fwd_eq_bwd]
  ring

/-! ## C8: the range of the magnetisation -/

theorem total_sub_from_one (dim : Nat) (u : Int → Int → ℚ) :
    ∑ x ∈ Finset.range dim, ∑ y ∈ Finset.range dim, (1 - u x y)
      = (dim : ℚ) * (dim : ℚ) - total dim u := by
  unfold total
  simp [Finset.sum_sub_distrib]

/-- A lattice whose values are at most 1 has total at most `dim * dim`, with
equality exactly when every value is 1. -/
theorem total_le_and_eq_iff (dim : Nat) (u : Int → Int → ℚ)
    (hu : ∀ x y : Nat, x < dim → y < dim → u x y ≤ 1) :
    total dim u ≤ (dim : ℚ) * (dim : ℚ) ∧
    (total dim u = (dim : ℚ) * (dim : ℚ) ↔ ∀ x y : Nat, x < dim → y < dim → u x y = 1) := by
  have hnn : ∀ x ∈ Finset.range dim, 0 ≤ ∑ y ∈ Finset.range dim, (1 - u x y) := by
    intro x hx
    apply Finset.sum_nonneg
    intro y hy
    rw [Finset.mem_range] at hx hy
    linarith [hu x y hx hy]
  have hsum := total_sub_from_one dim u
  constructor
  · have h0 : 0 ≤ ∑ x ∈ Finset.range dim, ∑ y ∈ Finset.range dim, (1 - u x y) :=
      Finset.sum_nonneg hnn
    linarith
  · constructor
    · intro h x y hx hy
      have h0 : ∑ x ∈ Finset.range dim, ∑ y ∈ Finset.range dim, (1 - u x y) = 0 := by
        rw [hsum, h]; ring
      have h1 := (Finset.sum_eq_zero_iff_of_nonneg hnn).mp h0 x (Finset.mem_range.mpr hx)
      have hnn' : ∀ y ∈ Finset.range dim, 0 ≤ 1 - u x y := by
        intro y hy
        rw [Finset.mem_range] at hy
        linarith [hu x y hx hy]
      have h2 := (Finset.sum_eq_zero_iff_of_nonneg hnn').mp h1 y (Finset.mem_range.mpr hy)
      linarith
    · intro h
      have h0 : ∑ x ∈ Finset.range dim, ∑ y ∈ Finset.range dim, (1 - u x y) = 0 := by
        apply Finset.sum_eq_zero
        intro x hx
        apply Finset.sum_eq_zero
        intro y hy
        rw [Finset.mem_range] at hx hy
        rw [h x y hx hy]; ring
      linarith

theorem total_neg (dim : Nat) (u : Int → Int → ℚ) :
    total dim (fun i j => -u i j) = -total dim u := by
  unfold total
  simp [Finset.sum_neg_distrib]

theorem magnetisation_M (dim : Nat) (m : Matrix) (p : Properties) :
    (magnetisation dim m p).M = total dim (castM m) / ((dim : ℚ) * (dim : ℚ)) := by
  unfold magnetisation
  rw [spinSum_eq, spin_total]
  push_cast
  rfl

theorem castM_spin (dim : Nat) (m : Matrix) (hm : SpinValued dim m) (x y : Nat)
    (hx : x < dim) (hy : y < dim) : castM m x y = 1 ∨ castM m x y = -1 := by
  unfold castM
  rcases hm x y hx hy with h | h
  · left; rw [h]; norm_num
  · right; rw [h]; norm_num

theorem allEqual_iff (dim : Nat) (m : Matrix) (hdim : 0 < dim) (hm : SpinValued dim m) :
    AllEqual dim m ↔
      (∀ x y : Nat, x < dim → y < dim → castM m x y = 1) ∨
      (∀ x y : Nat, x < dim → y < dim → -castM m x y = 1) := by
  constructor
  · intro h
    rcases hm 0 0 hdim hdim with h0 | h0
    · left
      intro x y hx hy
      have := h x y 0 0 hx hy hdim hdim
      unfold castM
      rw [this]
      exact_mod_cast h0
    · right
      intro x y hx hy
      have := h x y 0 0 hx hy hdim hdim
      unfold castM
      rw [this]
      have h0' : ((m ((0 : Nat) : Int) ((0 : Nat) : Int) : Int) : ℚ) = -1 := by
        exact_mod_cast h0
      rw [h0']; norm_num
  · intro h i j i' j' hi hj hi' hj'
    have cast_inj : ∀ a b : Int, (a : ℚ) = (b : ℚ) → a = b := fun a b hab => by
      exact_mod_cast hab
    apply cast_inj
    rcases h with h | h
    · have h1 := h i j hi hj
      have h2 := h i' j' hi' hj'
      unfold castM at h1 h2
      rw [h1, h2]
    · have h1 := h i j hi hj
      have h2 := h i' j' hi' hj'
      unfold castM at h1 h2
      linarith

/-- C8. For every lattice of side `dim > 0` whose cells are all `+1` or `-1`,
the value `M` that `magnetisation` computes lies in `[-1, 1]`, and `M` is
`+1` or `-1` exactly when all spins of the lattice are equal. -/
theorem C8_magnetisation_range (dim : Nat) (m : Matrix) (Prop_ : Properties)
    (hdim : 0 < dim) (hm : SpinValued dim m) :
    -1 ≤ (magnetisation dim m Prop_).M ∧ (magnetisation dim m Prop_).M ≤ 1 ∧
    (((magnetisation dim m Prop_).M = 1 ∨ (magnetisation dim m Prop_).M = -1)
      ↔ AllEqual dim m) := by
  have hN : (0 : ℚ) < (dim : ℚ) * (dim : ℚ) := by
    have : (0 : ℚ) < (dim : ℚ) := by exact_mod_cast hdim
    positivity
  have hup : ∀ x y : Nat, x < dim → y < dim → castM m x y ≤ 1 := by
    intro x y hx hy
    rcases castM_spin dim m hm x y hx hy with h | h <;> simp [h]
  have hdown : ∀ x y : Nat, x < dim → y < dim → -castM m x y ≤ 1 := by
    intro x y hx hy
    rcases castM_spin dim m hm x y hx hy with h | h <;> simp [h]
  obtain ⟨hle, heq⟩ := total_le_and_eq_iff dim (castM m) hup
  obtain ⟨hge, heq'⟩ := total_le_and_eq_iff dim (fun i j => -castM m i j) hdown
  rw [total_neg] at hge heq'
  rw [magnetisation_M]
  refine ⟨?_, ?_, ?_⟩
  · rw [le_div_iff₀ hN]; linarith
  · rw [div_le_iff₀ hN]; linarith
  · rw [allEqual_iff dim m hdim hm, ← heq, ← heq', div_eq_iff (ne_of_gt hN),
      div_eq_iff (ne_of_gt hN)]
    constructor
    · rintro (h | h)
      · left; linarith
      · right; linarith
    · rintro (h | h)
      · left; linarith
      · right; linarith

/-- Instance of C8 on the all-up lattice of side `DIM`. -/
theorem C8_magnetisation_range_witness :
    0 < DIM ∧ SpinValued DIM allUp ∧
    -1 ≤ (magnetisation DIM allUp zeroProp).M ∧ (magnetisation DIM allUp zeroProp).M ≤ 1 ∧
    (((magnetisation DIM allUp zeroProp).M = 1 ∨ (magnetisation DIM allUp zeroProp).M = -1)
      ↔ AllEqual DIM allUp) :=
  ⟨by decide, fun _ _ _ _ => Or.inl rfl,
    C8_magnetisation_range DIM allUp zeroProp (by decide) (fun _ _ _ _ => Or.inl rfl)⟩

/-! ## The energy change of a single flip -/

theorem fwd_add (dim : Nat) (u d : Int → Int → ℚ) :
    fwd dim (fun i j => u i j + d i j) (fun i j => u i j + d i j)
      = fwd dim u u + fwd dim u d + fwd dim d u + fwd dim d d := by
  unfold fwd
  simp only [← Finset.sum_add_distrib]
  apply Finset.sum_congr rfl
  intro x _
  apply Finset.sum_congr rfl
  intro y _
  ring

theorem total_add (dim : Nat) (u d : Int → Int → ℚ) :
    total dim (fun i j => u i j + d i j) = total dim u + total dim d := by
  unfold total
  simp only [← Finset.sum_add_distrib]

theorem bump_self (a b : Int) (c : ℚ) : bump a b c a b = c := by
  unfold bump
  rw [if_pos ⟨rfl, rfl⟩]

theorem bump_of_ne_left (a b : Int) (c : ℚ) (i j : Int) (h : i ≠ a) :
    bump a b c i j = 0 := by
  unfold bump
  rw [if_neg (fun h' => h h'.1)]

theorem bump_of_ne_right (a b : Int) (c : ℚ) (i j : Int) (h : j ≠ b) :
    bump a b c i j = 0 := by
  unfold bump
  rw [if_neg (fun h' => h h'.2)]

/-- A sum over all sites against a `bump` keeps the one term of its cell. -/
theorem sum_bump (dim : Nat) (a b : Nat) (ha : a < dim) (hb : b < dim) (c : ℚ)
    (g : Int → Int → ℚ) :
    ∑ x ∈ Finset.range dim, ∑ y ∈ Finset.range dim, bump a b c x y * g x y
      = c * g a b := by
  rw [Finset.sum_eq_single a]
  · rw [Finset.sum_eq_single b]
    · rw [bump_self]
    · intro y _ hy
      rw [bump_of_ne_right _ _ _ _ _ (by exact_mod_cast hy), zero_mul]
    · intro h
      exact absurd (Finset.mem_range.mpr hb) h
  · intro x _ hx
    apply Finset.sum_eq_zero
    intro y _
    rw [bump_of_ne_left _ _ _ _ _ (by exact_mod_cast hx), zero_mul]
  · intro h
    exact absurd (Finset.mem_range.mpr ha) h

theorem fwd_bump_left (dim : Nat) (a b : Nat) (ha : a < dim) (hb : b < dim) (c : ℚ)
    (v : Int → Int → ℚ) :
    fwd dim (bump a b c) v
      = c * (v (idx dim ((a : Int) + 1)) b + v a (idx dim ((b : Int) + 1))) := by
  unfold fwd
  exact sum_bump dim a b ha hb c
    (fun x y => v (idx dim (x + 1)) y + v x (idx dim (y + 1)))

theorem bwd_bump_left (dim : Nat) (a b : Nat) (ha : a < dim) (hb : b < dim) (c : ℚ)
    (v : Int → Int → ℚ) :
    bwd dim (bump a b c) v
      = c * (v (idx dim ((a : Int) - 1)) b + v a (idx dim ((b : Int) - 1))) := by
  unfold bwd
  exact sum_bump dim a b ha hb c
    (fun x y => v (idx dim (x - 1)) y + v x (idx dim (y - 1)))

theorem total_bump (dim : Nat) (a b : Nat) (ha : a < dim) (hb : b < dim) (c : ℚ) :
    total dim (bump a b c) = c := by
  have h := sum_bump dim a b ha hb c (fun _ _ => 1)
  simp only [mul_one] at h
  exact h

/-- On a lattice of side at least 2 the forward neighbour of an index is a
different index. -/
theorem idx_succ_ne (dim : Nat) (a : Nat) (hdim : 2 ≤ dim) (ha : a < dim) :
    idx dim ((a : Int) + 1) ≠ (a : Int) := by
  obtain ⟨k, rfl⟩ : ∃ k, dim = k + 1 := ⟨dim - 1, by omega⟩
  by_cases h : a < k
  · rw [idx_succ_of_lt k a h]
    push_cast
    omega
  · have hak : a = k := by omega
    rw [hak, idx_succ_last]
    omega

theorem fwd_bump_bump (dim : Nat) (a b : Nat) (hdim : 2 ≤ dim) (ha : a < dim)
    (hb : b < dim) (c : ℚ) : fwd dim (bump a b c) (bump a b c) = 0 := by
  rw [fwd_bump_left dim a b ha hb,
    bump_of_ne_left _ _ _ _ _ (idx_succ_ne dim a hdim ha),
    bump_of_ne_right _ _ _ _ _ (idx_succ_ne dim b hdim hb)]
  ring

theorem castM_flipSite (dim : Nat) (m : Matrix) (a b : Nat) (ha : a < dim) (hb : b < dim) :
    castM (flipSite dim m a b)
      = fun i j => castM m i j + bump a b (-2 * castM m a b) i j := by
  funext i j
  unfold castM flipSite setS setCell S bump
  rw [idx_of_lt dim a ha, idx_of_lt dim b hb]
  by_cases h : (i = (a : Int) ∧ j = (b : Int))
  · rw [if_pos h, if_pos h, h.1, h.2]
    push_cast
    ring
  · rw [if_neg h, if_neg h]
    ring

theorem delta_E_eq (dim : Nat) (m : Matrix) (B : ℚ) (a b : Nat) (ha : a < dim)
    (hb : b < dim) :
    delta_E dim m B a b = castM m a b *
      (2 * J * (castM m (idx dim ((a : Int) - 1)) b + castM m a (idx dim ((b : Int) - 1))
        + castM m (idx dim ((a : Int) + 1)) b + castM m a (idx dim ((b : Int) + 1)))
        + MU_B * B) := by
  unfold delta_E S castM
  rw [idx_of_lt dim a ha, idx_of_lt dim b hb]
  push_cast
  ring

/-- The energy change of a single flip on a lattice of side at least 2: it
is `delta_E` plus once more the field term `MU_B * B * S(x,y)`. -/
theorem energy_flipSite_sub (dim : Nat) (m : Matrix) (p : Properties) (a b : Nat)
    (hdim : 2 ≤ dim) (ha : a < dim) (hb : b < dim) :
    (energy dim (flipSite dim m a b) p).Energy - (energy dim m p).Energy
      = delta_E dim m p.B a b + MU_B * p.B * (S dim m a b : ℚ) := by
  rw [energy_fwd, energy_fwd, castM_flipSite dim m a b ha hb, fwd_add, total_add,
    fwd_eq_bwd dim (castM m) (bump a b (-2 * castM m a b)),
    bwd_bump_left dim a b ha hb, fwd_bump_left dim a b ha hb,
    fwd_bump_bump dim a b hdim ha hb, total_bump dim a b ha hb,
    delta_E_eq dim m p.B a b ha hb, S_of_lt dim m a b ha hb]
  unfold castM
  ring

/-! ## C2: `delta_E` against the energy change of a flip -/

theorem delta_E_allUp (dim : Nat) (B : ℚ) (x y : Int) :
    delta_E dim allUp B x y = 8 * J + MU_B * B := by
  unfold delta_E S allUp
  push_cast
  ring

/-- C2, the code at a failing input. On the all-up lattice of side
`DIM = 30` in the field `B = 1`, for the site `(0, 0)`: `evolution` computes
`delta_E = 8*J + MU_B`, while `energy` of the lattice with only that spin
negated minus `energy` of the lattice is `8*J + 2*MU_B`; the two differ by
the field term `MU_B * B`, which `delta_E` counts once and the energy change
contains twice. -/
theorem C2_delta_E_field_term :
    delta_E DIM allUp 1 0 0 = 8 * J + MU_B ∧
    (energy DIM (flipSite DIM allUp 0 0) { zeroProp with B := 1 }).Energy
      - (energy DIM allUp { zeroProp with B := 1 }).Energy = 8 * J + 2 * MU_B ∧
    delta_E DIM allUp 1 0 0 ≠
      (energy DIM (flipSite DIM allUp 0 0) { zeroProp with B := 1 }).Energy
        - (energy DIM allUp { zeroProp with B := 1 }).Energy := by
  have hd : delta_E DIM allUp 1 0 0 = 8 * J + MU_B := by
    rw [delta_E_allUp]; ring
  have he := energy_flipSite_sub DIM allUp { zeroProp with B := 1 } 0 0
    (by decide) (by decide) (by decide)
  simp only [Nat.cast_zero] at he
  rw [hd] at he
  have hs : ((S DIM allUp 0 0 : Int) : ℚ) = 1 := by
    unfold S allUp
    norm_num
  rw [hs] at he
  have he' : (energy DIM (flipSite DIM allUp 0 0) { zeroProp with B := 1 }).Energy
      - (energy DIM allUp { zeroProp with B := 1 }).Energy = 8 * J + 2 * MU_B := by
    rw [he]; ring
  refine ⟨hd, he', ?_⟩
  rw [hd, he']
  intro h
  have hmu : MU_B = 0 := by linarith
  unfold MU_B at hmu
  norm_num at hmu

/-! ## A concrete run of `stats` -/

/-- When every uniform draw is below every value of `exp`, a proposal always
flips the site it draws. -/
theorem proposal_of_accepting {G : Type} (E : Extern G) (dim : Nat) (p : Properties)
    (s : System G) (hacc : ∀ g q, (E.gsl_rng_uniform g).1 < E.exp q) :
    (proposal E dim p s).matrix =
      flipSite dim s.matrix ((E.gsl_rng_uniform_int s.Rangen dim).1 : Int)
        ((E.gsl_rng_uniform_int (E.gsl_rng_uniform_int s.Rangen dim).2 dim).1 : Int) := by
  unfold proposal
  dsimp only
  split_ifs with h1 h2
  · rfl
  · rfl
  · exact absurd (hacc _ _) h2

/-- The generator after a proposal: the state after the second site draw,
or after the uniform draw that follows it. -/
theorem proposal_Rangen {G : Type} (E : Extern G) (dim : Nat) (p : Properties)
    (s : System G) :
    (proposal E dim p s).Rangen =
        (E.gsl_rng_uniform_int (E.gsl_rng_uniform_int s.Rangen dim).2 dim).2 ∨
    (proposal E dim p s).Rangen =
        (E.gsl_rng_uniform
          (E.gsl_rng_uniform_int (E.gsl_rng_uniform_int s.Rangen dim).2 dim).2).2 := by
  unfold proposal
  dsimp only
  split_ifs with h1 h2
  · left; rfl
  · right; rfl
  · right; rfl

theorem flipSite_flipSite (dim : Nat) (m : Matrix) (x y : Int) :
    flipSite dim (flipSite dim m x y) x y = m := by
  funext i j
  unfold flipSite setS setCell S
  by_cases h : (i = idx dim x ∧ j = idx dim y)
  · simp [h.1, h.2]
  · simp [h]

theorem spike_proposal (p : Properties) (s : System (Nat × Nat)) :
    (proposal spikeGen DIM p s).matrix =
      flipSite DIM s.matrix (((if s.Rangen.1 = 1800000 then 1 else 0) % DIM : Nat) : Int)
        (((if s.Rangen.1 + 1 = 1800000 then 1 else 0) % DIM : Nat) : Int) ∧
    (proposal spikeGen DIM p s).Rangen.1 = s.Rangen.1 + 2 := by
  constructor
  · exact proposal_of_accepting spikeGen DIM p s
      (fun _ _ => by show (0 : ℚ) < 1 / 2; norm_num)
  · rcases proposal_Rangen spikeGen DIM p s with h | h <;> rw [h] <;> rfl

/-- A proposal away from the special draw flips the site `(0, 0)`. -/
theorem spike_proposal_plain (p : Properties) (s : System (Nat × Nat))
    (h0 : s.Rangen.1 ≠ 1800000) (h1 : s.Rangen.1 + 1 ≠ 1800000) :
    (proposal spikeGen DIM p s).matrix = flipSite DIM s.matrix 0 0 := by
  rw [(spike_proposal p s).1, if_neg h0, if_neg h1]
  rfl

/-- The proposal at the special draw flips the site `(1, 0)`. -/
theorem spike_proposal_special (p : Properties) (s : System (Nat × Nat))
    (h0 : s.Rangen.1 = 1800000) :
    (proposal spikeGen DIM p s).matrix = flipSite DIM s.matrix 1 0 := by
  rw [(spike_proposal p s).1, if_pos h0, if_neg (by omega)]
  rfl

/-- A sweep of the concrete run that does not contain the special draw
leaves the lattice as it is: it flips the site `(0, 0)` 900 times. -/
theorem spike_sweep_plain (p : Properties) (s : System (Nat × Nat)) (j : Nat)
    (hg : s.Rangen.1 = 1800 * j) (hj : j ≠ 1000) :
    (evolution spikeGen DIM p s).matrix = s.matrix ∧
    (evolution spikeGen DIM p s).Rangen.1 = 1800 * (j + 1) := by
  have key := forLoop_invariant
    (fun n (t : System (Nat × Nat)) => t.Rangen.1 = 1800 * j + 2 * n ∧
      t.matrix = if n % 2 = 0 then s.matrix else flipSite DIM s.matrix 0 0)
    (DIM * DIM) (fun _ t => proposal spikeGen DIM p t) s ⟨by omega, by simp⟩
    (by
      intro i t hi ht
      obtain ⟨hg', hm'⟩ := ht
      have hi' : i < 900 := hi
      refine ⟨by rw [(spike_proposal p t).2, hg']; ring, ?_⟩
      rw [spike_proposal_plain p t (by omega) (by omega), hm']
      by_cases hpar : i % 2 = 0
      · rw [if_pos hpar, if_neg (by omega)]
      · rw [if_neg hpar, if_pos (by omega), flipSite_flipSite])
  obtain ⟨h1, h2⟩ := key
  refine ⟨?_, ?_⟩
  · unfold evolution
    rw [h2, if_pos (by decide)]
  · unfold evolution
    rw [h1]
    show 1800 * j + 2 * 900 = 1800 * (j + 1)
    ring

/-- The sweep of the concrete run that starts with the special draw flips
the site `(1, 0)` once and the site `(0, 0)` 899 times. -/
theorem spike_sweep_special (p : Properties) (s : System (Nat × Nat))
    (hg : s.Rangen.1 = 1800000) :
    (evolution spikeGen DIM p s).matrix = flipSite DIM (flipSite DIM s.matrix 1 0) 0 0 ∧
    (evolution spikeGen DIM p s).Rangen.1 = 1800 * 1001 := by
  have key := forLoop_invariant
    (fun n (t : System (Nat × Nat)) => t.Rangen.1 = 1800000 + 2 * n ∧
      t.matrix = if n = 0 then s.matrix else
        if n % 2 = 1 then flipSite DIM s.matrix 1 0
        else flipSite DIM (flipSite DIM s.matrix 1 0) 0 0)
    (DIM * DIM) (fun _ t => proposal spikeGen DIM p t) s ⟨by omega, by simp⟩
    (by
      intro i t hi ht
      obtain ⟨hg', hm'⟩ := ht
      refine ⟨by rw [(spike_proposal p t).2, hg']; ring, ?_⟩
      rw [if_neg (by omega)]
      by_cases hi0 : i = 0
      · rw [spike_proposal_special p t (by omega), hm', if_pos hi0, if_pos (by omega)]
      · rw [spike_proposal_plain p t (by omega) (by omega), hm', if_neg hi0]
        by_cases hpar : i % 2 = 1
        · rw [if_pos hpar, if_neg (by omega)]
        · rw [if_neg hpar, if_pos (by omega), flipSite_flipSite])
  obtain ⟨h1, h2⟩ := key
  refine ⟨?_, ?_⟩
  · unfold evolution
    rw [h2, if_neg (by decide), if_neg (by decide)]
  · unfold evolution
    rw [h1]
    rfl

/-- The lattice of the concrete run after `k` sweeps: all-up through sweep
1000, `twoDown` from then on. -/
theorem spike_sweeps (p : Properties) (k : Nat) :
    (sweeps spikeGen DIM p k ⟨allUp, (0, 0)⟩).Rangen.1 = 1800 * k ∧
    (sweeps spikeGen DIM p k ⟨allUp, (0, 0)⟩).matrix
      = if k ≤ 1000 then allUp else twoDown := by
  induction k with
  | zero => exact ⟨rfl, rfl⟩
  | succ k ih =>
    obtain ⟨hg, hm⟩ := ih
    rw [sweeps_succ]
    by_cases hk : k = 1000
    · have hg' : (sweeps spikeGen DIM p k ⟨allUp, (0, 0)⟩).Rangen.1 = 1800000 := by
        rw [hg, hk]
      obtain ⟨h1, h2⟩ := spike_sweep_special p _ hg'
      refine ⟨by rw [h2, hk], ?_⟩
      rw [h1, hm, if_pos (by omega), if_neg (by omega)]
      rfl
    · obtain ⟨h1, h2⟩ := spike_sweep_plain p _ k hg hk
      refine ⟨h2, ?_⟩
      rw [h1, hm]
      by_cases hle : k ≤ 1000
      · rw [if_pos hle, if_pos (by omega)]
      · rw [if_neg hle, if_neg (by omega)]

theorem delta_E_oneDown :
    delta_E DIM (flipSite DIM allUp 1 0) 0 0 0 = 4 * J := by
  have i0 : idx DIM 0 = 0 := by decide
  have i1 : idx DIM 1 = 1 := by decide
  have i2 : idx DIM (0 - 1) = 29 := by decide
  have i3 : idx DIM (0 + 1) = 1 := by decide
  simp only [delta_E, S, flipSite, setS, setCell, allUp, i0, i1, i2, i3]
  norm_num
  ring

/-- At zero field the energy of `twoDown` is the energy of the all-up
lattice plus `12 * J`. -/
theorem energy_twoDown (p : Properties) (hB : p.B = 0) :
    (energy DIM twoDown p).Energy = (energy DIM allUp p).Energy + 12 * J := by
  have h1 := energy_flipSite_sub DIM allUp p 1 0 (by decide) (by decide) (by decide)
  have h2 := energy_flipSite_sub DIM (flipSite DIM allUp 1 0) p 0 0
    (by decide) (by decide) (by decide)
  simp only [Nat.cast_zero, Nat.cast_one, hB, mul_zero, zero_mul, add_zero] at h1 h2
  rw [delta_E_allUp] at h1
  rw [delta_E_oneDown] at h2
  unfold twoDown
  linarith

theorem sum_map_range_const (n : Nat) (f : Nat → ℚ) (c : ℚ) (h : ∀ i, i < n → f i = c) :
    ((List.range n).map f).sum = (n : ℚ) * c := by
  induction n with
  | zero => simp
  | succ k ih =>
    rw [List.sum_range_succ, ih (fun i hi => h i (Nat.lt_succ_of_lt hi)),
      h k (Nat.lt_succ_self k)]
    push_cast
    ring

theorem mean_range_first_then_const (k : Nat) (f : Nat → ℚ) (a b : ℚ) (h0 : f 0 = a)
    (h : ∀ i, f (i + 1) = b) :
    mean ((List.range (k + 1)).map f) = (a + (k : ℚ) * b) / ((k : ℚ) + 1) := by
  unfold mean
  rw [List.range_succ_eq_map, List.map_cons, List.sum_cons, List.map_map, h0,
    sum_map_range_const k (f ∘ Nat.succ) b (fun i _ => h i)]
  simp

theorem mean_range_const (k : Nat) (hk : 0 < k) (f : Nat → ℚ) (b : ℚ)
    (h : ∀ i, f i = b) : mean ((List.range k).map f) = b := by
  unfold mean
  rw [sum_map_range_const k f b (fun i _ => h i)]
  have : (k : ℚ) ≠ 0 := by exact_mod_cast (Nat.pos_iff_ne_zero.mp hk)
  simp only [List.length_map, List.length_range]
  field_simp

theorem spike_measured (p : Properties) (hB : p.B = 0) (n : Nat) :
    (measured spikeGen DIM p ⟨allUp, (0, 0)⟩ n).1 =
      if n ≤ 1000 then (energy DIM allUp p).Energy
      else (energy DIM allUp p).Energy + 12 * J := by
  unfold measured
  rw [(spike_sweeps p n).2]
  by_cases h : n ≤ 1000
  · rw [if_pos h, if_pos h]
  · rw [if_neg h, if_neg h, energy_twoDown p hB]

/-- The concrete run: `Energy_av` on return from `stats` against the mean of
the `EVOLVE` energies measured after the sampling sweeps. -/
theorem spike_stats (p : Properties) (hB : p.B = 0) :
    (stats spikeGen DIM ⟨allUp, (0, 0)⟩ p).Prop_.Energy_av
      = ((energy DIM allUp p).Energy
          + (EVOLVE : ℚ) * ((energy DIM allUp p).Energy + 12 * J)) / ((EVOLVE : ℚ) + 1) ∧
    mean ((List.range EVOLVE).map
        (fun i => (measured spikeGen DIM p ⟨allUp, (0, 0)⟩ (1000 + i + 1)).1))
      = (energy DIM allUp p).Energy + 12 * J := by
  constructor
  · rw [(stats_result spikeGen DIM ⟨allUp, (0, 0)⟩ p).2.2.1]
    apply mean_range_first_then_const
    · rw [spike_measured p hB, if_pos (by omega)]
    · intro i
      rw [spike_measured p hB, if_neg (by omega)]
  · apply mean_range_const EVOLVE (by decide)
    intro i
    rw [spike_measured p hB, if_neg (by omega)]

/-! ## C6: the sample count of `stats` on the concrete run -/

/-- C6, counterexample. Run `stats` on the all-up lattice of side `DIM` at
temperature 300 and field 0 with the generator `spikeGen`, for which the
lattice is all-up after each of the first 1000 sweeps and `twoDown` after
every later sweep. On return the number of samples in the accumulator is
4001, not `EVOLVE = 4000`, and `Energy_av` is not the arithmetic mean of the
`EVOLVE` energies measured after the sampling sweeps: it also averages in the
energy measured after sweep 1000, before the first sampling sweep. -/
theorem C6_counterexample :
    (stats spikeGen DIM ⟨allUp, (0, 0)⟩ { zeroProp with Temp := 300 }).x = 4001 ∧
    (stats spikeGen DIM ⟨allUp, (0, 0)⟩ { zeroProp with Temp := 300 }).x ≠ EVOLVE ∧
    (stats spikeGen DIM ⟨allUp, (0, 0)⟩ { zeroProp with Temp := 300 }).Prop_.Energy_av ≠
      mean ((List.range EVOLVE).map (fun i =>
        (measured spikeGen DIM { zeroProp with Temp := 300 } ⟨allUp, (0, 0)⟩
          (1000 + i + 1)).1)) := by
  have hx := (stats_result spikeGen DIM ⟨allUp, (0, 0)⟩ { zeroProp with Temp := 300 }).2.1
  obtain ⟨h1, h2⟩ := spike_stats { zeroProp with Temp := 300 } rfl
  have hE : (EVOLVE : ℚ) = 4000 := by norm_num [EVOLVE]
  refine ⟨by rw [hx]; rfl, by rw [hx]; decide, ?_⟩
  rw [h1, h2, hE]
  intro h
  have h' : (energy DIM allUp { zeroProp with Temp := 300 }).Energy
      + 4000 * ((energy DIM allUp { zeroProp with Temp := 300 }).Energy + 12 * J)
      = ((energy DIM allUp { zeroProp with Temp := 300 }).Energy + 12 * J) * (4000 + 1) := by
    rw [div_eq_iff (by norm_num)] at h
    exact h
  have hJ : J = 0 := by linarith
  unfold J at hJ
  norm_num at hJ

/-! ## C11: heat capacity and susceptibility -/

theorem KB_pos : 0 < KB := by
  unfold KB
  norm_num

/-- C11. For all values of `Energy_stddev` and `Mag_stddev` and every
`Temp > 0`, `heatcapacity` sets `C = Energy_stddev^2 / (KB * Temp^2)` and
`susceptibility` sets `Chi = Mag_stddev^2 / (KB * Temp)`, and both results
are non-negative. -/
theorem C11_response_functions (Prop_ : Properties) (hT : 0 < Prop_.Temp) :
    (heatcapacity Prop_).C = Prop_.Energy_stddev ^ 2 / (KB * Prop_.Temp ^ 2) ∧
    (susceptibility Prop_).Chi = Prop_.Mag_stddev ^ 2 / (KB * Prop_.Temp) ∧
    0 ≤ (heatcapacity Prop_).C ∧ 0 ≤ (susceptibility Prop_).Chi := by
  have hk := KB_pos
  have h1 : (heatcapacity Prop_).C = Prop_.Energy_stddev ^ 2 / (KB * Prop_.Temp ^ 2) := by
    show (Prop_.Energy_stddev * Prop_.Energy_stddev) / (KB * Prop_.Temp * Prop_.Temp) = _
    congr 1 <;> ring
  have h2 : (susceptibility Prop_).Chi = Prop_.Mag_stddev ^ 2 / (KB * Prop_.Temp) := by
    show (Prop_.Mag_stddev * Prop_.Mag_stddev) / (KB * Prop_.Temp) = _
    congr 1
    ring
  refine ⟨h1, h2, ?_, ?_⟩
  · rw [h1]; positivity
  · rw [h2]; positivity

/-- Instance of C11 at `Temp = 300`, `Energy_stddev = -3` and
`Mag_stddev = 1/2`. -/
theorem C11_response_functions_witness :
    (0 : ℚ) < 300 ∧
    (heatcapacity { zeroProp with Temp := 300, Energy_stddev := -3, Mag_stddev := 1 / 2 }).C
      = (-3) ^ 2 / (KB * 300 ^ 2) ∧
    (susceptibility { zeroProp with Temp := 300, Energy_stddev := -3, Mag_stddev := 1 / 2 }).Chi
      = (1 / 2) ^ 2 / (KB * 300) ∧
    0 ≤ (heatcapacity
      { zeroProp with Temp := 300, Energy_stddev := -3, Mag_stddev := 1 / 2 }).C ∧
    0 ≤ (susceptibility
      { zeroProp with Temp := 300, Energy_stddev := -3, Mag_stddev := 1 / 2 }).Chi :=
  ⟨by norm_num, C11_response_functions
    { zeroProp with Temp := 300, Energy_stddev := -3, Mag_stddev := 1 / 2 }
    (by show (0 : ℚ) < 300; norm_num)⟩

/-! ## C19: the accesses through `S` are in bounds -/

/-- C19. For a lattice side `dim > 0`, a site coordinate `x` in `[0, dim)`
and a neighbour offset `d` among `-1, 0, +1`, the index `(DIM + (x + d)) % DIM`
that the macro `S` computes is in `[0, dim)` and equals `(x + d) mod dim`; the
index `-1` wraps to `dim - 1` and the index `dim` wraps to `0`. These are all
the accesses of `energy`, `magnetisation` and `evolution`. -/
theorem C19_accesses_in_bounds (dim : Nat) (x : Nat) (d : Int) (hdim : 0 < dim)
    (hx : x < dim) (hd : d = -1 ∨ d = 0 ∨ d = 1) :
    0 ≤ idx dim ((x : Int) + d) ∧ idx dim ((x : Int) + d) < (dim : Int) ∧
    idx dim ((x : Int) + d) = ((x : Int) + d) % (dim : Int) ∧
    idx dim (-1) = (dim : Int) - 1 ∧ idx dim (dim : Int) = 0 := by
  have hpos : (0 : Int) < (dim : Int) := by exact_mod_cast hdim
  have hx' : (x : Int) < (dim : Int) := by exact_mod_cast hx
  have e : idx dim ((x : Int) + d) = ((x : Int) + d) % (dim : Int) :=
    idx_of_ge_neg dim _ (by rcases hd with h | h | h <;> omega)
  refine ⟨?_, ?_, e, ?_, ?_⟩
  · rw [e]; exact Int.emod_nonneg _ (ne_of_gt hpos)
  · rw [e]; exact Int.emod_lt_of_pos _ hpos
  · unfold idx
    rw [Int.tmod_eq_emod (by omega) (by omega)]
    exact Int.emod_eq_of_lt (by omega) (by omega)
  · rw [idx_of_nonneg dim _ (by omega)]
    exact Int.emod_self

/-- Instance of C19 at `DIM = 30`, `x = 29` and the offset `+1`. -/
theorem C19_accesses_in_bounds_witness :
    0 ≤ idx DIM (((29 : Nat) : Int) + 1) ∧ idx DIM (((29 : Nat) : Int) + 1) < (DIM : Int) ∧
    idx DIM (((29 : Nat) : Int) + 1) = (((29 : Nat) : Int) + 1) % (DIM : Int) ∧
    idx DIM (-1) = (DIM : Int) - 1 ∧ idx DIM (DIM : Int) = 0 :=
  C19_accesses_in_bounds DIM 29 1 (by decide) (by decide) (by decide)

/-! ## C13: the energy of the all-up lattice -/

theorem idx_succ_cell (dim : Nat) (x : Nat) (hx : x < dim) :
    ∃ k : Nat, k < dim ∧ idx dim ((x : Int) + 1) = (k : Int) := by
  obtain ⟨n, rfl⟩ : ∃ n, dim = n + 1 := ⟨dim - 1, by omega⟩
  by_cases h : x < n
  · exact ⟨x + 1, by omega, idx_succ_of_lt n x h⟩
  · have hxn : x = n := by omega
    refine ⟨0, by omega, ?_⟩
    rw [hxn, idx_succ_last]
    rfl

/-- The energy of a lattice whose cells are all `+1`. -/
theorem energy_all_one (dim : Nat) (m : Matrix) (p : Properties)
    (h : ∀ i j : Nat, i < dim → j < dim → m i j = 1) :
    (energy dim m p).Energy
      = -(J * (2 * (dim : ℚ) * (dim : ℚ)) + MU_B * p.B * ((dim : ℚ) * (dim : ℚ))) := by
  have hc : ∀ i j : Nat, i < dim → j < dim → castM m i j = 1 := by
    intro i j hi hj
    unfold castM
    rw [h i j hi hj]
    norm_num
  have hf : fwd dim (castM m) (castM m) = 2 * (dim : ℚ) * (dim : ℚ) := by
    unfold fwd
    have hterm : ∀ x ∈ Finset.range dim, ∀ y ∈ Finset.range dim,
        castM m x y * (castM m (idx dim ((x : Int) + 1)) y
          + castM m x (idx dim ((y : Int) + 1))) = 2 := by
      intro x hx y hy
      rw [Finset.mem_range] at hx hy
      obtain ⟨k, hk, ek⟩ := idx_succ_cell dim x hx
      obtain ⟨l, hl, el⟩ := idx_succ_cell dim y hy
      rw [ek, el, hc x y hx hy, hc k y hk hy, hc x l hx hl]
      norm_num
    rw [Finset.sum_congr rfl (fun x hx => Finset.sum_congr rfl (hterm x hx))]
    simp
    ring
  have ht : total dim (castM m) = (dim : ℚ) * (dim : ℚ) := by
    unfold total
    rw [Finset.sum_congr rfl (fun x hx => Finset.sum_congr rfl
      (fun y hy => hc x y (Finset.mem_range.mp hx) (Finset.mem_range.mp hy)))]
    simp
  rw [energy_fwd, hf, ht]

/-- C13, amended. In exact arithmetic, for a lattice of side `dim` in which
every spin is `+1`, the sum that `energy` computes at `B = 0` is
`-2 * dim^2 * J`; for the 2 x 2 all-up lattice this is `-8 * J`. -/
theorem C13_all_up_energy (dim : Nat) (m : Matrix) (Prop_ : Properties)
    (h : ∀ i j : Nat, i < dim → j < dim → m i j = 1) :
    (energy dim m { Prop_ with B := 0 }).Energy = -2 * (dim : ℚ) ^ 2 * J ∧
    (energy 2 allUp { Prop_ with B := 0 }).Energy = -8 * J := by
  constructor
  · rw [energy_all_one dim m _ h]
    ring
  · rw [energy_all_one 2 allUp _ (fun _ _ _ _ => rfl)]
    push_cast
    ring

/-- Instance of C13 on the all-up lattice of side `DIM = 30`. -/
theorem C13_all_up_energy_witness :
    (∀ i j : Nat, i < DIM → j < DIM → allUp i j = 1) ∧
    (energy DIM allUp { zeroProp with B := 0 }).Energy = -2 * (DIM : ℚ) ^ 2 * J ∧
    (energy 2 allUp { zeroProp with B := 0 }).Energy = -8 * J :=
  ⟨fun _ _ _ _ => rfl, C13_all_up_energy DIM allUp zeroProp (fun _ _ _ _ => rfl)⟩

/-! ## C20: `delta_E` at zero field -/

/-- A proposal that accepts, whether because `delta_E <= 0` or because the
uniform draw is below the Boltzmann factor, flips the site it draws. -/
theorem proposal_accepted {G : Type} (E : Extern G) (dim : Nat) (p : Properties)
    (s : System G)
    (h : delta_E dim s.matrix p.B ((E.gsl_rng_uniform_int s.Rangen dim).1 : Int)
        ((E.gsl_rng_uniform_int (E.gsl_rng_uniform_int s.Rangen dim).2 dim).1 : Int) ≤ 0 ∨
      (E.gsl_rng_uniform
        (E.gsl_rng_uniform_int (E.gsl_rng_uniform_int s.Rangen dim).2 dim).2).1 <
        E.exp (-(delta_E dim s.matrix p.B ((E.gsl_rng_uniform_int s.Rangen dim).1 : Int)
          ((E.gsl_rng_uniform_int (E.gsl_rng_uniform_int s.Rangen dim).2 dim).1 : Int))
            / (KB * p.Temp))) :
    (proposal E dim p s).matrix =
      flipSite dim s.matrix ((E.gsl_rng_uniform_int s.Rangen dim).1 : Int)
        ((E.gsl_rng_uniform_int (E.gsl_rng_uniform_int s.Rangen dim).2 dim).1 : Int) := by
  unfold proposal
  dsimp only
  split_ifs with h1 h2
  · rfl
  · rfl
  · rcases h with h | h
    · exact absurd h h1
    · exact absurd h h2

/-- C20, amended. In exact arithmetic, with `B = 0` and a lattice side
`dim >= 2` (`DIM = 30` included), for every lattice and every site `(x, y)`
of it, the `delta_E` that `evolution` computes equals `energy` of the lattice
with only the spin at `(x, y)` negated minus `energy` of the lattice, both at
`B = 0`; so a proposal that is accepted changes the exact value of the sum
that `energy` computes by the `delta_E` of the site it drew. -/
theorem C20_delta_E_zero_field {G : Type} (E : Extern G) (dim : Nat) (m : Matrix)
    (Prop_ : Properties) (x y : Nat) (Sysmem : System G)
    (hdim : 2 ≤ dim) (hx : x < dim) (hy : y < dim) (hB : Prop_.B = 0) :
    delta_E dim m 0 x y =
      (energy dim (flipSite dim m x y) Prop_).Energy - (energy dim m Prop_).Energy ∧
    ((delta_E dim Sysmem.matrix Prop_.B ((E.gsl_rng_uniform_int Sysmem.Rangen dim).1 : Int)
        ((E.gsl_rng_uniform_int (E.gsl_rng_uniform_int Sysmem.Rangen dim).2 dim).1 : Int) ≤ 0 ∨
      (E.gsl_rng_uniform
        (E.gsl_rng_uniform_int (E.gsl_rng_uniform_int Sysmem.Rangen dim).2 dim).2).1 <
        E.exp (-(delta_E dim Sysmem.matrix Prop_.B
          ((E.gsl_rng_uniform_int Sysmem.Rangen dim).1 : Int)
          ((E.gsl_rng_uniform_int (E.gsl_rng_uniform_int Sysmem.Rangen dim).2 dim).1 : Int))
            / (KB * Prop_.Temp))) →
      (energy dim (proposal E dim Prop_ Sysmem).matrix Prop_).Energy
        - (energy dim Sysmem.matrix Prop_).Energy =
      delta_E dim Sysmem.matrix Prop_.B ((E.gsl_rng_uniform_int Sysmem.Rangen dim).1 : Int)
        ((E.gsl_rng_uniform_int (E.gsl_rng_uniform_int Sysmem.Rangen dim).2 dim).1 : Int)) := by
  have hpos : 0 < dim := by omega
  constructor
  · rw [energy_flipSite_sub dim m Prop_ x y hdim hx hy, hB]
    ring
  · intro hacc
    rw [proposal_accepted E dim Prop_ Sysmem hacc,
      energy_flipSite_sub dim Sysmem.matrix Prop_ _ _ hdim
        (E.uniform_int_lt _ dim hpos) (E.uniform_int_lt _ dim hpos), hB]
    ring

/-- Instance of C20 at `DIM = 30`, zero field and temperature 300: the site
`(0, 0)` of the all-up lattice, and the proposal that the counter generator
makes on it, which draws the site `(0, 1)` and accepts on the uniform draw
`1/5`. -/
theorem C20_delta_E_zero_field_witness :
    2 ≤ DIM ∧
    delta_E DIM allUp 0 0 0 =
      (energy DIM (flipSite DIM allUp 0 0) { zeroProp with Temp := 300 }).Energy
        - (energy DIM allUp { zeroProp with Temp := 300 }).Energy ∧
    (energy DIM (proposal counterGen DIM { zeroProp with Temp := 300 } ⟨allUp, 0⟩).matrix
        { zeroProp with Temp := 300 }).Energy
      - (energy DIM allUp { zeroProp with Temp := 300 }).Energy =
    delta_E DIM allUp 0 0 1 :=
  ⟨by decide,
   (C20_delta_E_zero_field counterGen DIM allUp { zeroProp with Temp := 300 } 0 0
      ⟨allUp, 0⟩ (by decide) (by decide) (by decide) rfl).1,
   (C20_delta_E_zero_field counterGen DIM allUp { zeroProp with Temp := 300 } 0 0
      ⟨allUp, 0⟩ (by decide) (by decide) (by decide) rfl).2
      (Or.inr (by
        show (((2 % 10 : Nat) : ℚ) / 10) < 1 / 2
        norm_num))⟩

/-! ## The `-D` mode with a zero interval -/

/-- With the interval 0 the loop of the `-D` mode stops in its first
iteration, after one call of `evolution` and before any snapshot. -/
theorem domainLoop_zero_interval {G : Type} (E : Extern G) (dim : Nat) (p : Properties)
    (s : System G) (n : Nat) :
    (forLoop (n + 1) (fun i r => domainStep E dim p 0 i r)
        { Sysmem := s, sweeps := 0, frames := [], halted := none }).halted
      = some Halt.divisionByZero ∧
    (forLoop (n + 1) (fun i r => domainStep E dim p 0 i r)
        { Sysmem := s, sweeps := 0, frames := [], halted := none }).sweeps = 1 ∧
    (forLoop (n + 1) (fun i r => domainStep E dim p 0 i r)
        { Sysmem := s, sweeps := 0, frames := [], halted := none }).frames = [] ∧
    (forLoop (n + 1) (fun i r => domainStep E dim p 0 i r)
        { Sysmem := s, sweeps := 0, frames := [], halted := none }).Sysmem
      = evolution E dim p s := by
  induction n with
  | zero => exact ⟨rfl, rfl, rfl, rfl⟩
  | succ k ih =>
    rw [forLoop_succ]
    obtain ⟨h1, h2, h3, h4⟩ := ih
    have hstep : ∀ r : Run G, r.halted = some Halt.divisionByZero →
        domainStep E dim p 0 (k + 1) r = r := by
      intro r hr
      unfold domainStep
      rw [hr]
    rw [hstep _ h1]
    exact ⟨h1, h2, h3, h4⟩

theorem interval_pos_iff (z : Int) (hz : 0 < z) : 1 ≤ Int.tdiv 5000 z ↔ z ≤ 5000 := by
  rw [Int.tdiv_eq_ediv (by norm_num) (le_of_lt hz), Int.le_ediv_iff_mul_le hz]
  omega

theorem interval_zero (z : Int) (hz : 5000 < z) : Int.tdiv 5000 z = 0 := by
  rw [Int.tdiv_eq_ediv (by norm_num) (by omega)]
  exact Int.ediv_eq_zero_of_lt (by norm_num) hz

theorem caseD_zero_interval {G : Type} (E : Extern G) (dim : Nat) (Temp B : ℚ)
    (output_number : Int) (s : System G) (p : Properties)
    (hT : 0 < Temp) (hz : 5000 < output_number) :
    (caseD E dim Temp B output_number s p).halted = some Halt.divisionByZero ∧
    (caseD E dim Temp B output_number s p).sweeps = 1 ∧
    (caseD E dim Temp B output_number s p).frames = [] := by
  unfold caseD
  dsimp only
  rw [if_neg (not_le.mpr hT), if_neg (not_le.mpr (by omega)), interval_zero _ hz]
  obtain ⟨h1, h2, h3, _⟩ := domainLoop_zero_interval E dim
    { p with Temp := Temp, B := B } s 4999
  exact ⟨h1, h2, h3⟩

theorem caseD_invalid {G : Type} (E : Extern G) (dim : Nat) (Temp B : ℚ)
    (output_number : Int) (s : System G) (p : Properties)
    (h : Temp ≤ 0 ∨ output_number ≤ 0) :
    (caseD E dim Temp B output_number s p).sweeps = 0 ∧
    (caseD E dim Temp B output_number s p).frames = [] ∧
    (caseD E dim Temp B output_number s p).Sysmem = s ∧
    ((caseD E dim Temp B output_number s p).halted = some Halt.invalidTemperature ∨
     (caseD E dim Temp B output_number s p).halted = some Halt.invalidImages) := by
  unfold caseD
  dsimp only
  by_cases hT : Temp ≤ 0
  · rw [if_pos hT]
    exact ⟨rfl, rfl, rfl, Or.inl rfl⟩
  · rw [if_neg hT]
    have hz : output_number ≤ 0 := by
      rcases h with h | h
      · exact absurd h hT
      · exact h
    rw [if_pos hz]
    exact ⟨rfl, rfl, rfl, Or.inr rfl⟩

/-! ## C18: the snapshot interval -/

/-- C18. In the `-D` mode with a valid temperature and an image count
`z > 0`, the interval `image = 5000 / z` is at least 1 exactly when
`z <= 5000`. For `z <= 5000` the interval is not zero and the run goes
through its 5000 sweeps without a division by zero; for `z > 5000` the
interval is 0 and the test `i % image` divides by zero in the first
iteration, after one call of `evolution` and before any snapshot. -/
theorem C18_snapshot_interval {G : Type} (E : Extern G) (dim : Nat) (Temp B : ℚ)
    (output_number : Int) (Sysmem : System G) (Prop_ : Properties)
    (hT : 0 < Temp) (hz : 0 < output_number) :
    (1 ≤ Int.tdiv 5000 output_number ↔ output_number ≤ 5000) ∧
    (output_number ≤ 5000 →
      Int.tdiv 5000 output_number ≠ 0 ∧
      (caseD E dim Temp B output_number Sysmem Prop_).halted = none ∧
      (caseD E dim Temp B output_number Sysmem Prop_).sweeps = 5000) ∧
    (5000 < output_number →
      Int.tdiv 5000 output_number = 0 ∧
      (caseD E dim Temp B output_number Sysmem Prop_).halted = some Halt.divisionByZero ∧
      (caseD E dim Temp B output_number Sysmem Prop_).sweeps = 1 ∧
      (caseD E dim Temp B output_number Sysmem Prop_).frames = []) := by
  refine ⟨interval_pos_iff output_number hz, ?_, ?_⟩
  · intro hle
    have hne : Int.tdiv 5000 output_number ≠ 0 := by
      have := (interval_pos_iff output_number hz).mpr hle
      omega
    obtain ⟨h1, h2, _⟩ := caseD_valid E dim Temp B output_number Sysmem Prop_ hT hz hne
    exact ⟨hne, h1, h2⟩
  · intro hgt
    exact ⟨interval_zero output_number hgt,
      caseD_zero_interval E dim Temp B output_number Sysmem Prop_ hT hgt⟩

/-- Instance of C18 at `DIM = 30`, temperature 5, field 0 and image count
5001. -/
theorem C18_snapshot_interval_witness :
    (0 : ℚ) < 5 ∧ (0 : Int) < 5001 ∧
    (1 ≤ Int.tdiv 5000 5001 ↔ (5001 : Int) ≤ 5000) ∧
    ((5001 : Int) ≤ 5000 →
      Int.tdiv 5000 5001 ≠ 0 ∧
      (caseD counterGen DIM 5 0 5001 ⟨allUp, 0⟩ zeroProp).halted = none ∧
      (caseD counterGen DIM 5 0 5001 ⟨allUp, 0⟩ zeroProp).sweeps = 5000) ∧
    ((5000 : Int) < 5001 →
      Int.tdiv 5000 5001 = 0 ∧
      (caseD counterGen DIM 5 0 5001 ⟨allUp, 0⟩ zeroProp).halted
        = some Halt.divisionByZero ∧
      (caseD counterGen DIM 5 0 5001 ⟨allUp, 0⟩ zeroProp).sweeps = 1 ∧
      (caseD counterGen DIM 5 0 5001 ⟨allUp, 0⟩ zeroProp).frames = []) :=
  ⟨by norm_num, by decide,
    C18_snapshot_interval counterGen DIM 5 0 5001 ⟨allUp, 0⟩ zeroProp
      (by norm_num) (by decide)⟩

/-! ## The `-T` mode -/

theorem statsLoop_B_Temp {G : Type} (E : Extern G) (dim : Nat) (s : System G)
    (p : Properties) (k : Nat) :
    (statsLoop E dim k s p).Prop_.B = p.B ∧ (statsLoop E dim k s p).Prop_.Temp = p.Temp := by
  rw [statsLoop_eq]
  exact feed_B_Temp E p _ _

/-- The function `stats` leaves `B` and `Temp` as they are. -/
theorem stats_B_Temp {G : Type} (E : Extern G) (dim : Nat) (s : System G) (p : Properties) :
    (stats E dim s p).Prop_.B = p.B ∧ (stats E dim s p).Prop_.Temp = p.Temp :=
  statsLoop_B_Temp E dim s p EVOLVE

theorem fieldStep_fields {G : Type} (E : Extern G) (dim : Nat) (r : FieldRun G) :
    (fieldStep E dim r).Prop_.B = r.Prop_.B + (FIELDSTEP : ℚ) ∧
    (fieldStep E dim r).sweeps = r.sweeps + (1000 + EVOLVE) ∧
    (fieldStep E dim r).rows.length = r.rows.length + 1 ∧
    (fieldStep E dim r).opened = r.opened ∧
    (fieldStep E dim r).halted = r.halted := by
  refine ⟨?_, rfl, ?_, rfl, rfl⟩
  · show (stats E dim r.Sysmem r.Prop_).Prop_.B + (FIELDSTEP : ℚ) = _
    rw [(stats_B_Temp E dim r.Sysmem r.Prop_).1]
  · unfold fieldStep
    simp

/-- From the field `100 * i` the loop of the `-T` mode makes the remaining
`n = 200 - i` iterations and ends, whenever the bound on the iterations is at
least `n`. -/
theorem fieldLoop_runs {G : Type} (E : Extern G) (dim : Nat) :
    ∀ (n i fuel : Nat) (r : FieldRun G), i + n = 200 → r.Prop_.B = 100 * (i : ℚ) →
      n ≤ fuel →
      ∃ r', fieldLoop E dim fuel r = some r' ∧
        r'.sweeps = r.sweeps + n * (1000 + EVOLVE) ∧
        r'.rows.length = r.rows.length + n ∧
        r'.opened = r.opened ∧ r'.halted = r.halted := by
  intro n
  induction n with
  | zero =>
    intro i fuel r hi hB _
    have hi' : (i : ℚ) = 200 := by
      have : i = 200 := by omega
      rw [this]; norm_num
    have hnot : ¬ r.Prop_.B < (MAXFIELD : ℚ) := by
      rw [hB, hi']
      unfold MAXFIELD
      norm_num
    refine ⟨r, ?_, by simp, by simp, rfl, rfl⟩
    cases fuel with
    | zero => unfold fieldLoop; rw [if_neg hnot]
    | succ f => unfold fieldLoop; rw [if_neg hnot]
  | succ k ih =>
    intro i fuel r hi hB hfuel
    have hlt : r.Prop_.B < (MAXFIELD : ℚ) := by
      have : (i : ℚ) + 1 ≤ 200 := by
        have : i + 1 ≤ 200 := by omega
        exact_mod_cast this
      rw [hB]
      unfold MAXFIELD
      push_cast
      linarith
    obtain ⟨f, rfl⟩ : ∃ f, fuel = f + 1 := ⟨fuel - 1, by omega⟩
    obtain ⟨hB', hs, hr, ho, hh⟩ := fieldStep_fields E dim r
    have hB'' : (fieldStep E dim r).Prop_.B = 100 * ((i + 1 : Nat) : ℚ) := by
      rw [hB', hB]
      unfold FIELDSTEP
      push_cast
      ring
    obtain ⟨r', e, h1, h2, h3, h4⟩ := ih (i + 1) f (fieldStep E dim r) (by omega) hB''
      (by omega)
    refine ⟨r', ?_, ?_, ?_, ?_, ?_⟩
    · show (if r.Prop_.B < (MAXFIELD : ℚ) then fieldLoop E dim f (fieldStep E dim r)
        else some r) = some r'
      rw [if_pos hlt, e]
    · rw [h1, hs]; ring
    · rw [h2, hr]; ring
    · rw [h3, ho]
    · rw [h4, hh]

theorem caseT_invalid {G : Type} (E : Extern G) (dim fuel : Nat) (Temp : ℚ)
    (s : System G) (p : Properties) (hT : Temp ≤ 0) :
    ∃ r, caseT E dim fuel Temp s p = some r ∧ r.sweeps = 0 ∧ r.opened = false ∧
      r.rows = [] ∧ r.Sysmem = s ∧ r.halted = some Halt.invalidTemperature := by
  unfold caseT
  dsimp only
  rw [if_pos hT]
  exact ⟨_, rfl, rfl, rfl, rfl, rfl, rfl⟩

theorem caseT_valid {G : Type} (E : Extern G) (dim fuel : Nat) (Temp : ℚ)
    (s : System G) (p : Properties) (hT : 0 < Temp) (hfuel : 200 ≤ fuel) :
    ∃ r, caseT E dim fuel Temp s p = some r ∧ r.halted = none ∧ r.opened = true ∧
      r.sweeps = 200 * (1000 + EVOLVE) ∧ r.rows.length = 200 := by
  unfold caseT
  dsimp only
  rw [if_neg (not_le.mpr hT)]
  obtain ⟨r', e, h1, h2, h3, h4⟩ := fieldLoop_runs E dim 200 0 fuel
    { Sysmem := s, Prop_ := { p with Temp := Temp, B := 0 }, sweeps := 0, opened := true,
      rows := [], halted := none } rfl (by norm_num) hfuel
  exact ⟨r', e, h4, h3, by rw [h1]; simp, by rw [h2]; simp⟩

/-! ## C12: input validation -/

theorem caseD_proceeds {G : Type} (E : Extern G) (dim : Nat) (Temp B : ℚ)
    (output_number : Int) (s : System G) (p : Properties)
    (hT : 0 < Temp) (hz : 0 < output_number) :
    0 < (caseD E dim Temp B output_number s p).sweeps := by
  by_cases hle : output_number ≤ 5000
  · have hne : Int.tdiv 5000 output_number ≠ 0 := by
      have := (interval_pos_iff output_number hz).mpr hle
      omega
    rw [(caseD_valid E dim Temp B output_number s p hT hz hne).2.1]
    norm_num
  · rw [(caseD_zero_interval E dim Temp B output_number s p hT (by omega)).2.1]
    norm_num

/-- C12. Validation comes before any sweep and any output file. In the `-T`
mode with a temperature `x <= 0`, and in the `-D` mode with a temperature
`x <= 0` or an image count `z <= 0`, the run stops with no call of
`evolution`, the lattice and the generator untouched, and no output file
opened or written. Conversely, with `x > 0` the `-T` mode opens its file and
runs its 200 field steps of `1000 + EVOLVE` sweeps each (for every bound of
at least 200 on the iterations of its loop), and with `x > 0` and `z > 0`
the `-D` mode calls `evolution`. -/
theorem C12_input_validation {G : Type} (E : Extern G) (dim fuel : Nat) (Temp B : ℚ)
    (output_number : Int) (Sysmem : System G) (Prop_ : Properties) :
    (Temp ≤ 0 →
      ∃ r, caseT E dim fuel Temp Sysmem Prop_ = some r ∧ r.sweeps = 0 ∧
        r.opened = false ∧ r.rows = [] ∧ r.Sysmem = Sysmem ∧
        r.halted = some Halt.invalidTemperature) ∧
    (Temp ≤ 0 ∨ output_number ≤ 0 →
      (caseD E dim Temp B output_number Sysmem Prop_).sweeps = 0 ∧
      (caseD E dim Temp B output_number Sysmem Prop_).frames = [] ∧
      (caseD E dim Temp B output_number Sysmem Prop_).Sysmem = Sysmem ∧
      ((caseD E dim Temp B output_number Sysmem Prop_).halted
          = some Halt.invalidTemperature ∨
        (caseD E dim Temp B output_number Sysmem Prop_).halted
          = some Halt.invalidImages)) ∧
    (0 < Temp → 200 ≤ fuel →
      ∃ r, caseT E dim fuel Temp Sysmem Prop_ = some r ∧ r.halted = none ∧
        r.opened = true ∧ r.sweeps = 200 * (1000 + EVOLVE) ∧ r.rows.length = 200) ∧
    (0 < Temp → 0 < output_number →
      0 < (caseD E dim Temp B output_number Sysmem Prop_).sweeps) :=
  ⟨caseT_invalid E dim fuel Temp Sysmem Prop_,
   caseD_invalid E dim Temp B output_number Sysmem Prop_,
   caseT_valid E dim fuel Temp Sysmem Prop_,
   caseD_proceeds E dim Temp B output_number Sysmem Prop_⟩

/-- Instance of C12 at `DIM = 30`: `-T 0` and `-D 0 0 3` stop before any
sweep and any file. -/
theorem C12_input_validation_witness :
    (∃ r, caseT counterGen DIM 200 0 ⟨allUp, 0⟩ zeroProp = some r ∧ r.sweeps = 0 ∧
        r.opened = false ∧ r.rows = [] ∧ r.Sysmem = ⟨allUp, 0⟩ ∧
        r.halted = some Halt.invalidTemperature) ∧
    ((caseD counterGen DIM 0 0 3 ⟨allUp, 0⟩ zeroProp).sweeps = 0 ∧
      (caseD counterGen DIM 0 0 3 ⟨allUp, 0⟩ zeroProp).frames = [] ∧
      (caseD counterGen DIM 0 0 3 ⟨allUp, 0⟩ zeroProp).Sysmem = ⟨allUp, 0⟩ ∧
      ((caseD counterGen DIM 0 0 3 ⟨allUp, 0⟩ zeroProp).halted
          = some Halt.invalidTemperature ∨
        (caseD counterGen DIM 0 0 3 ⟨allUp, 0⟩ zeroProp).halted
          = some Halt.invalidImages)) :=
  ⟨(C12_input_validation counterGen DIM 200 0 0 3 ⟨allUp, 0⟩ zeroProp).1 (le_refl 0),
   (C12_input_validation counterGen DIM 200 0 0 3 ⟨allUp, 0⟩ zeroProp).2.1
     (Or.inl (le_refl 0))⟩

/-! ## C15: probabilistic acceptance -/

/-- A proposal changes no cell other than the one it draws. -/
theorem proposal_other_cells {G : Type} (E : Extern G) (dim : Nat) (p : Properties)
    (s : System G) (i j : Int)
    (h : ¬ (i = idx dim ((E.gsl_rng_uniform_int s.Rangen dim).1 : Int) ∧
      j = idx dim ((E.gsl_rng_uniform_int (E.gsl_rng_uniform_int s.Rangen dim).2 dim).1 : Int))) :
    (proposal E dim p s).matrix i j = s.matrix i j := by
  have hflip : flipSite dim s.matrix ((E.gsl_rng_uniform_int s.Rangen dim).1 : Int)
      ((E.gsl_rng_uniform_int (E.gsl_rng_uniform_int s.Rangen dim).2 dim).1 : Int) i j
      = s.matrix i j := by
    unfold flipSite setS setCell
    rw [if_neg h]
  unfold proposal
  dsimp only
  split_ifs
  · exact hflip
  · exact hflip
  · rfl

/-- A proposal with `delta_E > 0` whose uniform draw is not below the
Boltzmann factor leaves the lattice as it is. -/
theorem proposal_rejected {G : Type} (E : Extern G) (dim : Nat) (p : Properties)
    (s : System G)
    (hdE : 0 < delta_E dim s.matrix p.B ((E.gsl_rng_uniform_int s.Rangen dim).1 : Int)
        ((E.gsl_rng_uniform_int (E.gsl_rng_uniform_int s.Rangen dim).2 dim).1 : Int))
    (hU : ¬ (E.gsl_rng_uniform
        (E.gsl_rng_uniform_int (E.gsl_rng_uniform_int s.Rangen dim).2 dim).2).1 <
        E.exp (-(delta_E dim s.matrix p.B ((E.gsl_rng_uniform_int s.Rangen dim).1 : Int)
          ((E.gsl_rng_uniform_int (E.gsl_rng_uniform_int s.Rangen dim).2 dim).1 : Int))
            / (KB * p.Temp))) :
    (proposal E dim p s).matrix = s.matrix := by
  unfold proposal
  dsimp only
  rw [if_neg (not_le.mpr hdE), if_neg hU]

/-- C15. In one proposal of `evolution` with `delta_E > 0`, with `U` the
uniform draw that follows the two site draws (`0 <= U < 1`): if
`U < exp(-delta_E / (KB * Temp))` the spin at the drawn site is negated, and
otherwise the lattice is left unchanged; on a lattice of spins the spin at
the drawn site is negated exactly when `U` is below that factor. In every
case, whatever `delta_E` is, all cells other than the drawn site are
unchanged by the proposal. -/
theorem C15_probabilistic_acceptance {G : Type} (E : Extern G) (dim : Nat)
    (Prop_ : Properties) (Sysmem : System G) :
    (0 < delta_E dim Sysmem.matrix Prop_.B
        ((E.gsl_rng_uniform_int Sysmem.Rangen dim).1 : Int)
        ((E.gsl_rng_uniform_int (E.gsl_rng_uniform_int Sysmem.Rangen dim).2 dim).1 : Int) →
      (0 ≤ (E.gsl_rng_uniform
          (E.gsl_rng_uniform_int (E.gsl_rng_uniform_int Sysmem.Rangen dim).2 dim).2).1 ∧
        (E.gsl_rng_uniform
          (E.gsl_rng_uniform_int (E.gsl_rng_uniform_int Sysmem.Rangen dim).2 dim).2).1 < 1) ∧
      ((E.gsl_rng_uniform
          (E.gsl_rng_uniform_int (E.gsl_rng_uniform_int Sysmem.Rangen dim).2 dim).2).1 <
          E.exp (-(delta_E dim Sysmem.matrix Prop_.B
            ((E.gsl_rng_uniform_int Sysmem.Rangen dim).1 : Int)
            ((E.gsl_rng_uniform_int (E.gsl_rng_uniform_int Sysmem.Rangen dim).2 dim).1 : Int))
              / (KB * Prop_.Temp)) →
        (proposal E dim Prop_ Sysmem).matrix =
          flipSite dim Sysmem.matrix ((E.gsl_rng_uniform_int Sysmem.Rangen dim).1 : Int)
            ((E.gsl_rng_uniform_int (E.gsl_rng_uniform_int Sysmem.Rangen dim).2 dim).1 : Int)) ∧
      (¬ (E.gsl_rng_uniform
          (E.gsl_rng_uniform_int (E.gsl_rng_uniform_int Sysmem.Rangen dim).2 dim).2).1 <
          E.exp (-(delta_E dim Sysmem.matrix Prop_.B
            ((E.gsl_rng_uniform_int Sysmem.Rangen dim).1 : Int)
            ((E.gsl_rng_uniform_int (E.gsl_rng_uniform_int Sysmem.Rangen dim).2 dim).1 : Int))
              / (KB * Prop_.Temp)) →
        (proposal E dim Prop_ Sysmem).matrix = Sysmem.matrix) ∧
      (0 < dim → SpinValued dim Sysmem.matrix →
        (S dim (proposal E dim Prop_ Sysmem).matrix
            ((E.gsl_rng_uniform_int Sysmem.Rangen dim).1 : Int)
            ((E.gsl_rng_uniform_int (E.gsl_rng_uniform_int Sysmem.Rangen dim).2 dim).1 : Int)
          = -(S dim Sysmem.matrix ((E.gsl_rng_uniform_int Sysmem.Rangen dim).1 : Int)
            ((E.gsl_rng_uniform_int (E.gsl_rng_uniform_int Sysmem.Rangen dim).2 dim).1 : Int))
        ↔ (E.gsl_rng_uniform
          (E.gsl_rng_uniform_int (E.gsl_rng_uniform_int Sysmem.Rangen dim).2 dim).2).1 <
          E.exp (-(delta_E dim Sysmem.matrix Prop_.B
            ((E.gsl_rng_uniform_int Sysmem.Rangen dim).1 : Int)
            ((E.gsl_rng_uniform_int (E.gsl_rng_uniform_int Sysmem.Rangen dim).2 dim).1 : Int))
              / (KB * Prop_.Temp))))) ∧
    (∀ i j : Int,
      ¬ (i = idx dim ((E.gsl_rng_uniform_int Sysmem.Rangen dim).1 : Int) ∧
        j = idx dim
          ((E.gsl_rng_uniform_int (E.gsl_rng_uniform_int Sysmem.Rangen dim).2 dim).1 : Int)) →
      (proposal E dim Prop_ Sysmem).matrix i j = Sysmem.matrix i j) := by
  refine ⟨?_, fun i j h => proposal_other_cells E dim Prop_ Sysmem i j h⟩
  intro hdE
  refine ⟨⟨E.uniform_nonneg _, E.uniform_lt_one _⟩,
    fun hU => proposal_accepted E dim Prop_ Sysmem (Or.inr hU),
    fun hU => proposal_rejected E dim Prop_ Sysmem hdE hU, ?_⟩
  intro hdim hm
  constructor
  · intro hS
    by_contra hU
    rw [proposal_rejected E dim Prop_ Sysmem hdE hU] at hS
    have hx := E.uniform_int_lt Sysmem.Rangen dim hdim
    have hy := E.uniform_int_lt (E.gsl_rng_uniform_int Sysmem.Rangen dim).2 dim hdim
    rw [S_of_lt dim _ _ _ hx hy] at hS
    rcases hm _ _ hx hy with h | h <;> rw [h] at hS <;> omega
  · intro hU
    rw [proposal_accepted E dim Prop_ Sysmem (Or.inr hU)]
    exact S_flipSite_self dim _ _ _

/-- Instance of C15 at `DIM = 30`: on the all-up lattice at zero field and
temperature 300 the counter generator draws the site `(0, 1)`, where
`delta_E = 8 * J > 0`, and the uniform draw `1/5` is below its `exp`, so the
site is flipped. -/
theorem C15_probabilistic_acceptance_witness :
    0 < delta_E DIM allUp 0 0 1 ∧
    (proposal counterGen DIM { zeroProp with Temp := 300 } ⟨allUp, 0⟩).matrix =
      flipSite DIM allUp 0 1 :=
  have hd : 0 < delta_E DIM allUp 0 0 1 := by
    rw [delta_E_allUp]
    unfold J
    norm_num
  ⟨hd, ((C15_probabilistic_acceptance counterGen DIM { zeroProp with Temp := 300 }
      ⟨allUp, 0⟩).1 hd).2.1 (by
        show (((2 % 10 : Nat) : ℚ) / 10) < 1 / 2
        norm_num)⟩

/-! ## C17: the variance estimate is not negative -/

/-- One update of a running mean and mean of squares keeps the mean of
squares at least the square of the mean. -/
theorem variance_step (av avsq v : ℚ) (x : Nat) (h : 0 ≤ avsq - av * av) :
    0 ≤ (avsq * (x : ℚ) + v * v) / ((x + 1 : Nat) : ℚ)
      - (av * (x : ℚ) + v) / ((x + 1 : Nat) : ℚ) * ((av * (x : ℚ) + v) / ((x + 1 : Nat) : ℚ)) := by
  have hx : (0 : ℚ) ≤ (x : ℚ) := Nat.cast_nonneg x
  have hn : (0 : ℚ) < ((x + 1 : Nat) : ℚ) := by
    push_cast
    linarith
  have key : (avsq * (x : ℚ) + v * v) / ((x + 1 : Nat) : ℚ)
      - (av * (x : ℚ) + v) / ((x + 1 : Nat) : ℚ) * ((av * (x : ℚ) + v) / ((x + 1 : Nat) : ℚ))
      = ((x : ℚ) * ((x + 1 : Nat) : ℚ) * (avsq - av * av) + (x : ℚ) * (v - av) ^ 2)
          / (((x + 1 : Nat) : ℚ) * ((x + 1 : Nat) : ℚ)) := by
    field_simp
    ring
  rw [key]
  apply div_nonneg
  · exact add_nonneg (mul_nonneg (mul_nonneg hx (le_of_lt hn)) h)
      (mul_nonneg hx (sq_nonneg _))
  · exact le_of_lt (mul_pos hn hn)

/-- After the seed and any observations, both variance estimates of the
accumulator are non-negative. -/
theorem feed_variance {G : Type} (E : Extern G) (p : Properties) (seed : ℚ × ℚ)
    (obs : List (ℚ × ℚ)) :
    0 ≤ (feed E p seed obs).1.Energy_avsquare
      - (feed E p seed obs).1.Energy_av * (feed E p seed obs).1.Energy_av ∧
    0 ≤ (feed E p seed obs).1.Mag_avsquare
      - (feed E p seed obs).1.Mag_av * (feed E p seed obs).1.Mag_av := by
  induction obs using List.reverseRecOn with
  | nil =>
    constructor
    · show (0 : ℚ) ≤ seed.1 * seed.1 - seed.1 * seed.1
      simp
    · show (0 : ℚ) ≤ seed.2 * seed.2 - seed.2 * seed.2
      simp
  | append_singleton l o ih =>
    rw [feed_append_singleton]
    exact ⟨variance_step _ _ o.1 _ ih.1, variance_step _ _ o.2 _ ih.2⟩

/-- C17. In exact arithmetic the variance estimates inside `stats` are never
negative: after the seed and after every iteration of the moment updates,
for every sequence of sampled values, `Energy_avsquare - Energy_av^2 >= 0`
and `Mag_avsquare - Mag_av^2 >= 0`, so the absolute value taken for the
magnetisation is the identity; and this holds for the record of `stats`
after any number `k` of iterations of its loop, where the square root for
the energy is taken of this non-negative number. -/
theorem C17_variance_nonneg {G : Type} (E : Extern G) (p : Properties) (seed : ℚ × ℚ)
    (obs : List (ℚ × ℚ)) (dim : Nat) (s : System G) (k : Nat) :
    (0 ≤ (feed E p seed obs).1.Energy_avsquare
        - (feed E p seed obs).1.Energy_av ^ 2 ∧
     0 ≤ (feed E p seed obs).1.Mag_avsquare - (feed E p seed obs).1.Mag_av ^ 2 ∧
     |(feed E p seed obs).1.Mag_avsquare - (feed E p seed obs).1.Mag_av ^ 2|
        = (feed E p seed obs).1.Mag_avsquare - (feed E p seed obs).1.Mag_av ^ 2) ∧
    (0 ≤ (statsLoop E dim k s p).Prop_.Energy_avsquare
        - (statsLoop E dim k s p).Prop_.Energy_av ^ 2 ∧
     0 ≤ (statsLoop E dim k s p).Prop_.Mag_avsquare
        - (statsLoop E dim k s p).Prop_.Mag_av ^ 2 ∧
     |(statsLoop E dim k s p).Prop_.Mag_avsquare - (statsLoop E dim k s p).Prop_.Mag_av ^ 2|
        = (statsLoop E dim k s p).Prop_.Mag_avsquare
          - (statsLoop E dim k s p).Prop_.Mag_av ^ 2) := by
  have h1 := feed_variance E p seed obs
  have h2 := feed_variance E p (measured E dim p s 1000)
    ((List.range k).map (fun i => measured E dim p s (1000 + i + 1)))
  rw [statsLoop_eq]
  simp only [pow_two]
  exact ⟨⟨h1.1, h1.2, abs_of_nonneg h1.2⟩, ⟨h2.1, h2.2, abs_of_nonneg h2.2⟩⟩

/-! ## C16: `stats` resets the accumulator -/

theorem sweeps_congr {G : Type} (E : Extern G) (dim : Nat) (p q : Properties)
    (hB : p.B = q.B) (hT : p.Temp = q.Temp) (k : Nat) (s : System G) :
    sweeps E dim p k s = sweeps E dim q k s := by
  unfold sweeps
  have h : (fun (_ : Nat) (t : System G) => evolution E dim p t) =
      (fun (_ : Nat) (t : System G) => evolution E dim q t) := by
    funext _ t
    exact evolution_congr E dim p q hB hT t
  rw [h]

theorem measured_congr {G : Type} (E : Extern G) (dim : Nat) (p q : Properties)
    (hB : p.B = q.B) (hT : p.Temp = q.Temp) (s : System G) (n : Nat) :
    measured E dim p s n = measured E dim q s n := by
  unfold measured
  rw [sweeps_congr E dim p q hB hT, energy_Energy, energy_Energy, hB]
  rfl

/-- After at least one observation the two standard deviations are the
square roots of the variance estimates of the record. -/
theorem feed_stddev {G : Type} (E : Extern G) (p : Properties) (seed : ℚ × ℚ)
    (obs : List (ℚ × ℚ)) (h : obs ≠ []) :
    (feed E p seed obs).1.Energy_stddev =
      E.sqrt ((feed E p seed obs).1.Energy_avsquare
        - (feed E p seed obs).1.Energy_av * (feed E p seed obs).1.Energy_av) ∧
    (feed E p seed obs).1.Mag_stddev =
      E.sqrt (abs ((feed E p seed obs).1.Mag_avsquare
        - (feed E p seed obs).1.Mag_av * (feed E p seed obs).1.Mag_av)) := by
  induction obs using List.reverseRecOn with
  | nil => exact absurd rfl h
  | append_singleton l o _ =>
    rw [feed_append_singleton]
    exact ⟨rfl, rfl⟩

/-- The six moments of the accumulator depend on the seed and the
observations only, not on the record the updates start from. -/
theorem feed_moments_congr {G : Type} (E : Extern G) (p q : Properties) (seed : ℚ × ℚ)
    (obs : List (ℚ × ℚ)) (h : obs ≠ []) :
    (feed E p seed obs).1.Energy_av = (feed E q seed obs).1.Energy_av ∧
    (feed E p seed obs).1.Energy_avsquare = (feed E q seed obs).1.Energy_avsquare ∧
    (feed E p seed obs).1.Energy_stddev = (feed E q seed obs).1.Energy_stddev ∧
    (feed E p seed obs).1.Mag_av = (feed E q seed obs).1.Mag_av ∧
    (feed E p seed obs).1.Mag_avsquare = (feed E q seed obs).1.Mag_avsquare ∧
    (feed E p seed obs).1.Mag_stddev = (feed E q seed obs).1.Mag_stddev := by
  obtain ⟨_, a1, a2, a3, a4⟩ := feed_means E p seed obs
  obtain ⟨_, b1, b2, b3, b4⟩ := feed_means E q seed obs
  obtain ⟨c1, c2⟩ := feed_stddev E p seed obs h
  obtain ⟨d1, d2⟩ := feed_stddev E q seed obs h
  have e1 := a1.trans b1.symm
  have e2 := a2.trans b2.symm
  have e3 := a3.trans b3.symm
  have e4 := a4.trans b4.symm
  refine ⟨e1, e2, ?_, e3, e4, ?_⟩
  · rw [c1, d1, e1, e2]
  · rw [c2, d2, e3, e4]

theorem statsLoop_congr {G : Type} (E : Extern G) (dim : Nat) (s : System G)
    (p q : Properties) (hB : p.B = q.B) (hT : p.Temp = q.Temp) (k : Nat) (hk : 0 < k) :
    (statsLoop E dim k s p).Sysmem = (statsLoop E dim k s q).Sysmem ∧
    (statsLoop E dim k s p).Prop_.Energy_av = (statsLoop E dim k s q).Prop_.Energy_av ∧
    (statsLoop E dim k s p).Prop_.Energy_avsquare
      = (statsLoop E dim k s q).Prop_.Energy_avsquare ∧
    (statsLoop E dim k s p).Prop_.Energy_stddev
      = (statsLoop E dim k s q).Prop_.Energy_stddev ∧
    (statsLoop E dim k s p).Prop_.Mag_av = (statsLoop E dim k s q).Prop_.Mag_av ∧
    (statsLoop E dim k s p).Prop_.Mag_avsquare
      = (statsLoop E dim k s q).Prop_.Mag_avsquare ∧
    (statsLoop E dim k s p).Prop_.Mag_stddev = (statsLoop E dim k s q).Prop_.Mag_stddev := by
  rw [statsLoop_eq, statsLoop_eq]
  have hm : ∀ n, measured E dim p s n = measured E dim q s n :=
    measured_congr E dim p q hB hT s
  have hobs : (List.range k).map (fun i => measured E dim p s (1000 + i + 1))
      = (List.range k).map (fun i => measured E dim q s (1000 + i + 1)) := by
    apply List.map_congr_left
    intro i _
    exact hm _
  have hne : (List.range k).map (fun i => measured E dim q s (1000 + i + 1)) ≠ [] := by
    intro h
    have hl := congrArg List.length h
    rw [List.length_map, List.length_range] at hl
    simp at hl
    omega
  rw [hobs, hm 1000]
  exact ⟨sweeps_congr E dim p q hB hT _ s,
    feed_moments_congr E p q _ _ hne⟩

/-- C16. `stats` resets the accumulator: for the same lattice and generator
state and any two records that agree on `Temp` and `B`, `stats` returns the
same lattice and generator and identical `Energy_av`, `Energy_avsquare`,
`Energy_stddev`, `Mag_av`, `Mag_avsquare` and `Mag_stddev`, whatever all the
other fields of the two records held before the call. -/
theorem C16_stats_resets {G : Type} (E : Extern G) (dim : Nat) (Sysmem : System G)
    (p q : Properties) (hB : p.B = q.B) (hT : p.Temp = q.Temp) :
    (stats E dim Sysmem p).Sysmem = (stats E dim Sysmem q).Sysmem ∧
    (stats E dim Sysmem p).Prop_.Energy_av = (stats E dim Sysmem q).Prop_.Energy_av ∧
    (stats E dim Sysmem p).Prop_.Energy_avsquare
      = (stats E dim Sysmem q).Prop_.Energy_avsquare ∧
    (stats E dim Sysmem p).Prop_.Energy_stddev
      = (stats E dim Sysmem q).Prop_.Energy_stddev ∧
    (stats E dim Sysmem p).Prop_.Mag_av = (stats E dim Sysmem q).Prop_.Mag_av ∧
    (stats E dim Sysmem p).Prop_.Mag_avsquare
      = (stats E dim Sysmem q).Prop_.Mag_avsquare ∧
    (stats E dim Sysmem p).Prop_.Mag_stddev = (stats E dim Sysmem q).Prop_.Mag_stddev :=
  statsLoop_congr E dim Sysmem p q hB hT EVOLVE (by decide)

/-- Instance of C16 at `DIM = 30`: a fresh record and a used record, both at
temperature 300 and field 0. -/
theorem C16_stats_resets_witness :
    ({ zeroProp with Temp := 300 } : Properties).B = usedProp.B ∧
    ({ zeroProp with Temp := 300 } : Properties).Temp = usedProp.Temp ∧
    (stats counterGen DIM ⟨allUp, 0⟩ { zeroProp with Temp := 300 }).Sysmem
      = (stats counterGen DIM ⟨allUp, 0⟩ usedProp).Sysmem ∧
    (stats counterGen DIM ⟨allUp, 0⟩ { zeroProp with Temp := 300 }).Prop_.Energy_av
      = (stats counterGen DIM ⟨allUp, 0⟩ usedProp).Prop_.Energy_av ∧
    (stats counterGen DIM ⟨allUp, 0⟩ { zeroProp with Temp := 300 }).Prop_.Energy_avsquare
      = (stats counterGen DIM ⟨allUp, 0⟩ usedProp).Prop_.Energy_avsquare ∧
    (stats counterGen DIM ⟨allUp, 0⟩ { zeroProp with Temp := 300 }).Prop_.Energy_stddev
      = (stats counterGen DIM ⟨allUp, 0⟩ usedProp).Prop_.Energy_stddev ∧
    (stats counterGen DIM ⟨allUp, 0⟩ { zeroProp with Temp := 300 }).Prop_.Mag_av
      = (stats counterGen DIM ⟨allUp, 0⟩ usedProp).Prop_.Mag_av ∧
    (stats counterGen DIM ⟨allUp, 0⟩ { zeroProp with Temp := 300 }).Prop_.Mag_avsquare
      = (stats counterGen DIM ⟨allUp, 0⟩ usedProp).Prop_.Mag_avsquare ∧
    (stats counterGen DIM ⟨allUp, 0⟩ { zeroProp with Temp := 300 }).Prop_.Mag_stddev
      = (stats counterGen DIM ⟨allUp, 0⟩ usedProp).Prop_.Mag_stddev :=
  ⟨rfl, rfl, C16_stats_resets counterGen DIM ⟨allUp, 0⟩ { zeroProp with Temp := 300 }
    usedProp rfl rfl⟩

/-! ## C14: the order of the draws in a sweep -/

/-- A proposal over the logging generator does what the proposal over the
plain generator does, and appends its calls to the log. -/
theorem traced_proposal {G : Type} (E : Extern G) (dim : Nat) (p : Properties)
    (m : Matrix) (g : G) (log : List Draw) :
    proposal (traced E) dim p ⟨m, (g, log)⟩ =
      ⟨(proposal E dim p ⟨m, g⟩).matrix,
        ((proposal E dim p ⟨m, g⟩).Rangen, log ++ proposalDraws E dim p ⟨m, g⟩)⟩ := by
  unfold proposal proposalDraws proposalDelta
  dsimp only [traced]
  by_cases h1 : delta_E dim m p.B ((E.gsl_rng_uniform_int g dim).1 : Int)
      ((E.gsl_rng_uniform_int (E.gsl_rng_uniform_int g dim).2 dim).1 : Int) ≤ 0
  · rw [if_pos h1, if_pos h1, if_neg (not_lt.mpr h1)]
    simp
  · rw [if_neg h1, if_neg h1, if_pos (not_le.mp h1)]
    split_ifs <;> simp

theorem traced_afterProposals {G : Type} (E : Extern G) (dim : Nat) (p : Properties)
    (m : Matrix) (g : G) (log : List Draw) (n : Nat) :
    afterProposals (traced E) dim p n ⟨m, (g, log)⟩ =
      ⟨(afterProposals E dim p n ⟨m, g⟩).matrix,
        ((afterProposals E dim p n ⟨m, g⟩).Rangen, log ++ sweepDraws E dim p n ⟨m, g⟩)⟩ := by
  induction n with
  | zero => simp [afterProposals, forLoop, sweepDraws]
  | succ k ih =>
    have e : afterProposals (traced E) dim p (k + 1) ⟨m, (g, log)⟩ =
        proposal (traced E) dim p (afterProposals (traced E) dim p k ⟨m, (g, log)⟩) := rfl
    have e' : afterProposals E dim p (k + 1) ⟨m, g⟩ =
        proposal E dim p (afterProposals E dim p k ⟨m, g⟩) := rfl
    rw [e, ih, traced_proposal, e']
    simp [sweepDraws, List.append_assoc]

theorem sweepDraws_counts {G : Type} (E : Extern G) (dim : Nat) (p : Properties)
    (s : System G) (n : Nat) :
    (sweepDraws E dim p n s).count (Draw.site dim) = 2 * n ∧
    (sweepDraws E dim p n s).count Draw.uniform = positiveProposals E dim p n s ∧
    (sweepDraws E dim p n s).count Draw.raw = 0 ∧
    (sweepDraws E dim p n s).length = 2 * n + positiveProposals E dim p n s := by
  induction n with
  | zero => simp [sweepDraws, positiveProposals]
  | succ k ih =>
    obtain ⟨h1, h2, h3, h4⟩ := ih
    unfold sweepDraws positiveProposals proposalDraws
    by_cases hd : 0 < proposalDelta E dim p (afterProposals E dim p k s)
    · simp only [if_pos hd, List.count_append, List.length_append, h1, h2, h3, h4]
      refine ⟨?_, ?_, ?_, ?_⟩ <;> simp <;> omega
    · simp only [if_neg hd, List.count_append, List.length_append, h1, h2, h3, h4]
      refine ⟨?_, ?_, ?_, ?_⟩ <;> simp <;> omega

/-- C14. The draws of a sweep, read off the log of the logging generator.
One proposal calls the generator for the x-coordinate, then for the
y-coordinate, then for exactly one uniform draw if and only if `delta_E > 0`,
and otherwise behaves as over the plain generator. One call of `evolution`
is `dim * dim` proposals; its log has `2 * dim^2` site draws and as many
uniform draws as there are proposals with `delta_E > 0`, so the sweep
consumes `2 * dim^2` plus that number of draws; and the result of the sweep
is a function of the lattice, the generator, and `Temp` and `B` only. -/
theorem C14_draw_order {G : Type} (E : Extern G) (dim : Nat) (p q : Properties)
    (m : Matrix) (g : G) (log : List Draw) :
    proposal (traced E) dim p ⟨m, (g, log)⟩ =
      ⟨(proposal E dim p ⟨m, g⟩).matrix,
        ((proposal E dim p ⟨m, g⟩).Rangen,
          log ++ ([Draw.site dim, Draw.site dim] ++
            (if 0 < proposalDelta E dim p ⟨m, g⟩ then [Draw.uniform] else [])))⟩ ∧
    evolution E dim p ⟨m, g⟩ = afterProposals E dim p (dim * dim) ⟨m, g⟩ ∧
    evolution (traced E) dim p ⟨m, (g, log)⟩ =
      ⟨(evolution E dim p ⟨m, g⟩).matrix,
        ((evolution E dim p ⟨m, g⟩).Rangen,
          log ++ sweepDraws E dim p (dim * dim) ⟨m, g⟩)⟩ ∧
    (sweepDraws E dim p (dim * dim) ⟨m, g⟩).count (Draw.site dim) = 2 * (dim * dim) ∧
    (sweepDraws E dim p (dim * dim) ⟨m, g⟩).count Draw.uniform
      = positiveProposals E dim p (dim * dim) ⟨m, g⟩ ∧
    (sweepDraws E dim p (dim * dim) ⟨m, g⟩).length
      = 2 * (dim * dim) + positiveProposals E dim p (dim * dim) ⟨m, g⟩ ∧
    (p.B = q.B → p.Temp = q.Temp →
      evolution E dim p ⟨m, g⟩ = evolution E dim q ⟨m, g⟩) := by
  obtain ⟨h1, h2, _, h4⟩ := sweepDraws_counts E dim p ⟨m, g⟩ (dim * dim)
  exact ⟨traced_proposal E dim p m g log, rfl,
    traced_afterProposals E dim p m g log (dim * dim), h1, h2, h4,
    fun hB hT => evolution_congr E dim p q hB hT ⟨m, g⟩⟩

/-- Instance of C14 at `DIM = 30` on the all-up lattice with the counter
generator: a fresh and a used record at temperature 300 and field 0 give
the same sweep, whose log has 1800 site draws. -/
theorem C14_draw_order_witness :
    evolution counterGen DIM { zeroProp with Temp := 300 } ⟨allUp, 0⟩
      = evolution counterGen DIM usedProp ⟨allUp, 0⟩ ∧
    (sweepDraws counterGen DIM { zeroProp with Temp := 300 } (DIM * DIM)
      ⟨allUp, 0⟩).count (Draw.site DIM) = 2 * (DIM * DIM) :=
  ⟨(C14_draw_order counterGen DIM { zeroProp with Temp := 300 } usedProp allUp 0 []).2.2.2.2.2.2
      rfl rfl,
   (C14_draw_order counterGen DIM { zeroProp with Temp := 300 } usedProp allUp 0 []).2.2.2.1⟩

/-! ## Evaluation in binary64 -/

/-- `bitLength` counts the binary digits: a positive `n` lies between
`2^(b-1)` and `2^b` for `b = bitLength fuel n`, whenever `n <= fuel`. -/
theorem bitLength_spec : ∀ (fuel n : Nat), n ≤ fuel → 0 < n →
    1 ≤ bitLength fuel n ∧ 2 ^ (bitLength fuel n - 1) ≤ n ∧ n < 2 ^ bitLength fuel n := by
  intro fuel
  induction fuel with
  | zero => intro n h hn; omega
  | succ f ih =>
    intro n h hn
    have step : ∀ (k : Nat), 1 ≤ k → 2 ^ k ≤ n →
        1 ≤ bitLength f (n / 2 ^ k) + k ∧
        2 ^ (bitLength f (n / 2 ^ k) + k - 1) ≤ n ∧
        n < 2 ^ (bitLength f (n / 2 ^ k) + k) := by
      intro k hk hle
      have hpos : 0 < 2 ^ k := Nat.pow_pos (by norm_num)
      have h2 : 2 ≤ 2 ^ k := by
        calc 2 = 2 ^ 1 := by norm_num
          _ ≤ 2 ^ k := Nat.pow_le_pow_right (by norm_num) hk
      have hq : 0 < n / 2 ^ k := Nat.div_pos hle hpos
      have hlt : n / 2 ^ k < n := Nat.div_lt_self hn (by omega)
      obtain ⟨b1, b2, b3⟩ := ih (n / 2 ^ k) (by omega) hq
      refine ⟨by omega, ?_, ?_⟩
      · have e : bitLength f (n / 2 ^ k) + k - 1 = (bitLength f (n / 2 ^ k) - 1) + k := by
          omega
        rw [e, Nat.pow_add]
        calc 2 ^ (bitLength f (n / 2 ^ k) - 1) * 2 ^ k ≤ (n / 2 ^ k) * 2 ^ k :=
              Nat.mul_le_mul_right _ b2
          _ ≤ n := Nat.div_mul_le_self n (2 ^ k)
      · rw [Nat.pow_add]
        have := Nat.lt_mul_div_succ n hpos
        calc n < 2 ^ k * (n / 2 ^ k + 1) := this
          _ ≤ 2 ^ k * 2 ^ bitLength f (n / 2 ^ k) := Nat.mul_le_mul_left _ b3
          _ = 2 ^ bitLength f (n / 2 ^ k) * 2 ^ k := Nat.mul_comm _ _
    unfold bitLength
    rw [if_neg (by omega)]
    by_cases h32 : 2 ^ 32 ≤ n
    · rw [if_pos h32]
      exact step 32 (by norm_num) h32
    · rw [if_neg h32]
      by_cases h8 : 2 ^ 8 ≤ n
      · rw [if_pos h8]
        exact step 8 (by norm_num) h8
      · rw [if_neg h8]
        by_cases h1 : 2 ≤ n
        · have := step 1 (by norm_num) (by simpa using h1)
          simpa using this
        · have hn1 : n = 1 := by omega
          subst hn1
          cases f with
          | zero => simp [bitLength]
          | succ g => simp [bitLength]

/-- The rounding of `Double.round` on small cases: an exact value is kept, a
value above or below the midpoint goes to the nearer neighbour, and a
midpoint goes to the neighbour with the even mantissa. -/
theorem round_examples :
    Double.ofInt 1 = ⟨2 ^ 52, -52⟩ ∧ Double.ofInt (-3) = ⟨-3 * 2 ^ 51, -51⟩ ∧
    Double.round (2 ^ 53 + 1) 0 = ⟨2 ^ 52, 1⟩ ∧
    Double.round (2 ^ 53 + 3) 0 = ⟨2 ^ 52 + 2, 1⟩ ∧
    Double.round (2 ^ 54 + 5) 0 = ⟨2 ^ 52 + 1, 2⟩ ∧
    Double.round (2 ^ 54 - 1) 0 = ⟨2 ^ 52, 2⟩ ∧
    Double.round (-(2 ^ 54 + 7)) 0 = ⟨-(2 ^ 52 + 2), 2⟩ ∧
    Double.add ⟨2 ^ 52, 0⟩ ⟨2 ^ 52, -53⟩ = ⟨2 ^ 52, 0⟩ ∧
    Double.sub ⟨2 ^ 52, 1⟩ ⟨2 ^ 52, -52⟩ = ⟨2 ^ 53 - 1, 0⟩ := by
  decide!

theorem forLoop_split {σ : Type} (a b : Nat) (body : Nat → σ → σ) (s : σ) :
    forLoop (a + b) body s = forLoop b (fun i t => body (a + i) t) (forLoop a body s) := by
  induction b with
  | zero => rfl
  | succ k ih =>
    show body (a + k) (forLoop (a + k) body s) = body (a + k) (forLoop k _ (forLoop a body s))
    rw [ih]

theorem energyRowsDouble_split (dim : Nat) (m : Matrix) (B : Double) (a n k : Nat)
    (e : Double) :
    energyRowsDouble dim m B a (n + k) e
      = energyRowsDouble dim m B (a + n) k (energyRowsDouble dim m B a n e) := by
  unfold energyRowsDouble
  rw [forLoop_split]
  simp only [Nat.add_assoc]

theorem energyDouble_rows (dim : Nat) (m : Matrix) (B : Double) :
    energyDouble dim m B = energyRowsDouble dim m B 0 dim ⟨0, 0⟩ := by
  unfold energyDouble energyRowsDouble
  simp only [Nat.zero_add]

/-- The constants `J64` and `MU_B64` are the binary64 numbers nearest to the
decimal constants of the source: normalised mantissas, and at most half a
unit in the last place away. -/
theorem constants_nearest :
    |Double.toRat J64 - J| ≤ (2 : ℚ) ^ (-121 : Int) ∧
    |Double.toRat MU_B64 - MU_B| ≤ (2 : ℚ) ^ (-130 : Int) ∧
    (2 : Int) ^ 52 ≤ J64.m ∧ J64.m < 2 ^ 53 ∧ (2 : Int) ^ 52 ≤ MU_B64.m ∧ MU_B64.m < 2 ^ 53 := by
  refine ⟨?_, ?_, by decide, by decide, by decide, by decide⟩
  · rw [abs_le]
    unfold Double.toRat J64 J
    norm_num
  · rw [abs_le]
    unfold Double.toRat MU_B64 MU_B
    norm_num

theorem allUp_rows_0 :
    energyRowsDouble 30 allUp ⟨0, 0⟩ 0 10 ⟨0, 0⟩ = ⟨-5015758765344626, -110⟩ := by
  decide!

theorem allUp_rows_10 :
    energyRowsDouble 30 allUp ⟨0, 0⟩ 10 10 ⟨-5015758765344626, -110⟩
      = ⟨-5015758765344613, -109⟩ := by
  decide!

theorem allUp_rows_20 :
    energyRowsDouble 30 allUp ⟨0, 0⟩ 20 10 ⟨-5015758765344613, -109⟩
      = ⟨-7523638148016913, -109⟩ := by
  decide!

/-- The energy of the all-up lattice of side 30 at zero field, as `energy`
computes it in binary64: `-0x1.abab5833b2b11p-57`. -/
theorem energyDouble_allUp :
    energyDouble DIM allUp ⟨0, 0⟩ = ⟨-7523638148016913, -109⟩ := by
  show energyDouble 30 allUp ⟨0, 0⟩ = _
  rw [energyDouble_rows,
    show (30 : Nat) = 10 + (10 + 10) from rfl, energyRowsDouble_split, energyRowsDouble_split,
    allUp_rows_0, allUp_rows_10, allUp_rows_20]

theorem oneDown_rows_0 :
    energyRowsDouble 30 (flipSite 30 allUp 0 0) ⟨0, 0⟩ 0 10 ⟨0, 0⟩
      = ⟨-4965601177691180, -110⟩ := by
  decide!

theorem oneDown_rows_10 :
    energyRowsDouble 30 (flipSite 30 allUp 0 0) ⟨0, 0⟩ 10 10 ⟨-4965601177691180, -110⟩
      = ⟨-4990679971517890, -109⟩ := by
  decide!

theorem oneDown_rows_20 :
    energyRowsDouble 30 (flipSite 30 allUp 0 0) ⟨0, 0⟩ 20 10 ⟨-4990679971517890, -109⟩
      = ⟨-7490199756247949, -109⟩ := by
  decide!

/-- The energy of the lattice of side 30 with the one spin at `(0, 0)` down,
at zero field, as `energy` computes it in binary64:
`-0x1.a9c4c07c4938dp-57`. -/
theorem energyDouble_oneDown :
    energyDouble DIM (flipSite DIM allUp 0 0) ⟨0, 0⟩ = ⟨-7490199756247949, -109⟩ := by
  show energyDouble 30 (flipSite 30 allUp 0 0) ⟨0, 0⟩ = _
  rw [energyDouble_rows,
    show (30 : Nat) = 10 + (10 + 10) from rfl, energyRowsDouble_split, energyRowsDouble_split,
    oneDown_rows_0, oneDown_rows_10, oneDown_rows_20]

/-- On the 2 x 2 all-up lattice at zero field the binary64 value of `energy`
is the binary64 product `-8 * J`, without any rounding error. -/
theorem energyDouble_two_by_two :
    energyDouble 2 allUp ⟨0, 0⟩ = Double.mul (Double.ofInt (-8)) J64 := by
  decide!

/-! ## C13 and C20 in binary64 -/

/-- C13, counterexample. On the all-up lattice of side `DIM = 30` at `B = 0`
the value that `energy` computes in the `double` arithmetic of the program
is `-0x1.abab5833b2b11p-57`. It is not the binary64 product `-2 * 30^2 * J`,
which is `-0x1.abab5833b2b45p-57`, 52 units in the last place away, and it
is neither the exact number `-2 * 30^2 * J` for the decimal constant `J` nor
for the `double` that stands for it. -/
theorem C13_counterexample :
    energyDouble DIM allUp ⟨0, 0⟩ = ⟨-7523638148016913, -109⟩ ∧
    Double.mul (Double.ofInt (-2 * 30 * 30)) J64 = ⟨-7523638148016965, -109⟩ ∧
    energyDouble DIM allUp ⟨0, 0⟩ ≠ Double.mul (Double.ofInt (-2 * 30 * 30)) J64 ∧
    Double.toRat (energyDouble DIM allUp ⟨0, 0⟩) ≠ -2 * 30 ^ 2 * J ∧
    Double.toRat (energyDouble DIM allUp ⟨0, 0⟩) ≠ -2 * 30 ^ 2 * Double.toRat J64 := by
  have h2 : Double.mul (Double.ofInt (-2 * 30 * 30)) J64 = ⟨-7523638148016965, -109⟩ := by
    decide!
  refine ⟨energyDouble_allUp, h2, ?_, ?_, ?_⟩
  · rw [energyDouble_allUp, h2]
    decide
  · rw [energyDouble_allUp]
    unfold Double.toRat J
    norm_num
  · rw [energyDouble_allUp]
    unfold Double.toRat J64
    norm_num

/-- C20, counterexample. On the all-up lattice of side `DIM = 30` at `B = 0`
and the site `(0, 0)`, in the `double` arithmetic of the program: `energy`
of the lattice is `-0x1.abab5833b2b11p-57`, `energy` of the lattice with the
spin at `(0, 0)` negated is `-0x1.a9c4c07c4938dp-57`, and their difference is
`0x1.e697b76978400p-65` (5.1519999999999553e-20), while `delta_E` is
`0x1.e697b7697844ap-65` (5.152e-20), 74 units in the last place away. -/
theorem C20_counterexample :
    energyDouble DIM allUp ⟨0, 0⟩ = ⟨-7523638148016913, -109⟩ ∧
    energyDouble DIM (flipSite DIM allUp 0 0) ⟨0, 0⟩ = ⟨-7490199756247949, -109⟩ ∧
    Double.sub (energyDouble DIM (flipSite DIM allUp 0 0) ⟨0, 0⟩)
      (energyDouble DIM allUp ⟨0, 0⟩) = ⟨8560228292854784, -117⟩ ∧
    delta_E_double DIM allUp ⟨0, 0⟩ 0 0 = ⟨8560228292854858, -117⟩ ∧
    delta_E_double DIM allUp ⟨0, 0⟩ 0 0 ≠
      Double.sub (energyDouble DIM (flipSite DIM allUp 0 0) ⟨0, 0⟩)
        (energyDouble DIM allUp ⟨0, 0⟩) ∧
    Double.toRat (delta_E_double DIM allUp ⟨0, 0⟩ 0 0) ≠
      Double.toRat (energyDouble DIM (flipSite DIM allUp 0 0) ⟨0, 0⟩)
        - Double.toRat (energyDouble DIM allUp ⟨0, 0⟩) := by
  have hd : delta_E_double DIM allUp ⟨0, 0⟩ 0 0 = ⟨8560228292854858, -117⟩ := by
    decide!
  have hs : Double.sub (⟨-7490199756247949, -109⟩ : Double) ⟨-7523638148016913, -109⟩
      = ⟨8560228292854784, -117⟩ := by
    decide!
  refine ⟨energyDouble_allUp, energyDouble_oneDown, ?_, hd, ?_, ?_⟩
  · rw [energyDouble_allUp, energyDouble_oneDown, hs]
  · rw [energyDouble_allUp, energyDouble_oneDown, hs, hd]
    decide
  · rw [energyDouble_allUp, energyDouble_oneDown, hd]
    unfold Double.toRat
    norm_num

end Ising
